import Mathlib

/-!
Verification of the TKN2 HTTP server (`part_000`): connection-level request
framing (`handle_client`), request parsing and dispatch (`process_request`,
`count_headers`, `validate_headers`, `get_content_length`) and the dynamic
resource store (the `dynamic_resources` slot array).

Byte strings are modelled as `List Nat`; a C string is the prefix of the
byte array up to the first NUL byte (`cString`).
-/

set_option autoImplicit false
set_option maxRecDepth 2000

namespace TKN2

/-- C `isspace` in the default locale: space, \t, \n, \v, \f, \r. -/
def isSpaceB (c : Nat) : Bool :=
  c = 32 || c = 9 || c = 10 || c = 11 || c = 12 || c = 13

/-- ASCII digit. -/
def isDigitB (c : Nat) : Bool :=
  48 ≤ c && c ≤ 57

/-- C `tolower` on ASCII: maps A-Z to a-z, fixes everything else. -/
def lowerB (c : Nat) : Nat :=
  if 65 ≤ c ∧ c ≤ 90 then c + 32 else c

/-- The C string stored in a byte array: everything before the first NUL. -/
def cString (l : List Nat) : List Nat :=
  l.takeWhile (fun c => c ≠ 0)

/-- Bytes of a literal ASCII string. -/
def strBytes (s : String) : List Nat :=
  s.toList.map Char.toNat

def crlfB : List Nat := strBytes "\r\n"

def crlf2B : List Nat := strBytes "\r\n\r\n"

/-- `true` iff `n` is a prefix of `l` (byte-wise). -/
def listPrefix : List Nat → List Nat → Bool
  | [], _ => true
  | _ :: _, [] => false
  | a :: n, b :: l => a = b && listPrefix n l

/-- Auxiliary scan for `strstr`: first offset (counting from `i`) at which
`needle` occurs in `hay`. -/
def strstrAux (needle : List Nat) : List Nat → Nat → Option Nat
  | hay, i =>
    if listPrefix needle hay then some i
    else
      match hay with
      | [] => none
      | _ :: t => strstrAux needle t (i + 1)

/-- C `strstr` on the already NUL-truncated byte list: index of the first
occurrence of `needle` in `hay` (`some 0` for the empty needle, as in C). -/
def strstr (hay needle : List Nat) : Option Nat :=
  strstrAux needle hay 0

/-- C `strcasestr`: case-insensitive `strstr`. -/
def strcasestr (hay needle : List Nat) : Option Nat :=
  strstr (hay.map lowerB) (needle.map lowerB)

/-- C `strcasecmp … == 0`: equality up to ASCII case. -/
def strcaseEq (a b : List Nat) : Bool :=
  a.map lowerB = b.map lowerB

/-- Fold a digit run into a number. -/
def digitsVal (l : List Nat) : Nat :=
  l.foldl (fun acc c => acc * 10 + (c - 48)) 0

/-- `sscanf(s, "%zd", …)`: skip whitespace, optional sign (`-` = byte 45,
`+` = byte 43), at least one digit; `none` on matching failure. -/
def parseSsize (l : List Nat) : Option Int :=
  let l1 := l.dropWhile isSpaceB
  let sgn : Int := if l1.headD 0 = 45 then -1 else 1
  let l2 := if l1.headD 0 = 45 ∨ l1.headD 0 = 43 then l1.tail else l1
  let ds := l2.takeWhile isDigitB
  if ds = [] then none else some (sgn * (digitsVal ds : Int))

/-- `get_content_length` (part_000 lines 83-96): case-insensitive search for
"Content-Length:" anywhere in the C string, then `sscanf("%zd")` on what
follows; `-1` when the token is absent or the number fails to parse. -/
def get_content_length (request : List Nat) : Int :=
  let cs := cString request
  match strcasestr cs (strBytes "Content-Length:") with
  | none => -1
  | some i =>
    match parseSsize (cs.drop (i + 15)) with
    | none => -1
    | some v => v

/-- The scanning loop of `count_headers` (part_000 lines 52-55): `s` is the
suffix of the C string at the current pointer, `dist` the distance from the
pointer to the header terminator. Counts `\r\n` occurrences. The first
argument is structural fuel; every iteration shortens `dist` by at least 2,
so fuel `dist` never runs out (at fuel 0 the distance is 0 and the loop
would exit with the same value). -/
def countCrlfF : Nat → List Nat → Nat → Nat
  | 0, _, _ => 0
  | fuel + 1, s, dist =>
    if dist = 0 then 0
    else
      match strstr s crlfB with
      | none => 0
      | some j => 1 + countCrlfF fuel (s.drop (j + 2)) (dist - (j + 2))

def countCrlf (s : List Nat) (dist : Nat) : Nat :=
  countCrlfF dist s dist

/-- `count_headers` (part_000 lines 45-59): number of `\r\n` occurrences
starting before the header terminator, minus one for the blank line. -/
def count_headers (request : List Nat) : Int :=
  let cs := cString request
  match strstr cs crlf2B with
  | none => 0
  | some e => (countCrlf cs e : Int) - 1

/-- The line-checking loop of `validate_headers` (part_000 lines 70-77):
each header line must end in `\r\n` and be at most 256 bytes long. Fuel as
in `countCrlfF` (at fuel 0 the distance is 0 and the loop would exit with
`true`). -/
def validLoopF : Nat → List Nat → Nat → Bool
  | 0, _, _ => true
  | fuel + 1, s, dist =>
    if dist = 0 then true
    else
      match strstr s crlfB with
      | none => false
      | some j =>
        if 256 < j then false
        else validLoopF fuel (s.drop (j + 2)) (dist - (j + 2))

def validLoop (s : List Nat) (dist : Nat) : Bool :=
  validLoopF dist s dist

/-- `validate_headers` (part_000 lines 62-80). -/
def validate_headers (request : List Nat) : Bool :=
  let cs := cString request
  match strstr cs crlfB with
  | none => false
  | some h0 =>
    match strstr cs crlf2B with
    | none => false
    | some e => validLoop (cs.drop (h0 + 2)) (e - (h0 + 2))

/-- One `%Ns` conversion of `sscanf`: skip whitespace, then read at most
`width` non-whitespace bytes; `none` on end of input. Returns the token and
the unread remainder. -/
def scanToken (width : Nat) (l : List Nat) : Option (List Nat × List Nat) :=
  match l.dropWhile isSpaceB with
  | [] => none
  | c :: t =>
    let tok := ((c :: t).takeWhile (fun c => !isSpaceB c)).take width
    some (tok, (c :: t).drop tok.length)

/-- `sscanf(request, "%15s %255s %15s", method, path, version)` succeeding
with all three conversions (part_000 line 149). -/
def sscanf3 (l : List Nat) : Option (List Nat × List Nat × List Nat) :=
  match scanToken 15 l with
  | none => none
  | some (m, r1) =>
    match scanToken 255 r1 with
    | none => none
    | some (p, r2) =>
      match scanToken 15 r2 with
      | none => none
      | some (v, _) => some (m, p, v)

/-- One slot of the `dynamic_resources` array (part_000 lines 28-33). -/
structure DynRes where
  path : List Nat
  content : List Nat
  in_use : Bool
  content_length : Nat
  deriving DecidableEq, Repr

/-- A slot that has never been used (`= {0}` initialisation). -/
def emptySlot : DynRes := ⟨[], List.replicate 8192 0, false, 0⟩

/-- Overwrite position `n` of the slot array (in-bounds positions only). -/
def listModify (f : DynRes → DynRes) : Nat → List DynRes → List DynRes
  | _, [] => []
  | 0, r :: t => f r :: t
  | n + 1, r :: t => r :: listModify f n t

/-- The lookup scan of `process_request` (part_000 lines 192-202): first
in-use slot whose path equals `p` (the scan stops there), recording on the
way the first free slot for `Create`. `i` is the index of the head slot,
`avail` the first free slot seen so far. -/
def scanSlots : List DynRes → List Nat → Nat → Option Nat → Option Nat × Option Nat
  | [], _, _, avail => (none, avail)
  | r :: t, p, i, avail =>
    if r.in_use then
      if r.path = p then (some i, avail)
      else scanSlots t p (i + 1) avail
    else
      scanSlots t p (i + 1) (match avail with | some a => some a | none => some i)

/-- The `memset` + `memcpy` pair used for slot contents: the 8192-byte
content array holds the body followed by zeros. -/
def padContent (body : List Nat) : List Nat :=
  body ++ List.replicate (8192 - body.length) 0

/-- The static resource table (part_000 lines 36-40) together with the
lookup loop (lines 175-181). -/
def staticLookup (p : List Nat) : Option (List Nat × Nat) :=
  if p = strBytes "/static/foo" then some (strBytes "Foo", 3)
  else if p = strBytes "/static/bar" then some (strBytes "Bar", 3)
  else if p = strBytes "/static/baz" then some (strBytes "Baz", 3)
  else none

/-- A response as emitted by `send_response` (part_000 lines 116-138): the
status code, the value `n` written into the `Content-Length:` header, and
the `n` body bytes passed to `send_all`. -/
structure Resp where
  status : Nat
  contentLength : Nat
  body : List Nat
  deriving DecidableEq, Repr

/-- `send_response(fd, status, text, body, n)`: the header declares `n` and
exactly `n` bytes of `body` are sent after the blank line. -/
def mkResp (status : Nat) (body : List Nat) (n : Nat) : Resp :=
  ⟨status, n, body.take n⟩

/-- `process_request` (part_000 lines 141-270) as a function from the
request bytes (the NUL-terminated connection buffer handed over by
`handle_client`) and the dynamic store to the response and the new store. -/
def process_request (request : List Nat) (store : List DynRes) :
    Resp × List DynRes :=
  let cs := cString request
  match sscanf3 cs with
  | none => (mkResp 400 (strBytes "Invalid Request Format") 21, store)
  | some (method, path, _) =>
    if 40 < count_headers request then
      (mkResp 400 (strBytes "Too many headers") 15, store)
    else if validate_headers request = false then
      (mkResp 400 (strBytes "Invalid headers") 14, store)
    else if strcaseEq method (strBytes "HEAD") then
      (mkResp 501 [] 0, store)
    else if listPrefix (strBytes "/static/") path then
      if strcaseEq method (strBytes "GET") = false then
        (mkResp 405 [] 0, store)
      else
        match staticLookup path with
        | some (c, n) => (mkResp 200 c n, store)
        | none => (mkResp 404 [] 0, store)
    else if listPrefix (strBytes "/dynamic/") path then
      let scan := scanSlots store path 0 none
      if strcaseEq method (strBytes "PUT") then
        match strstr cs crlf2B with
        | none => (mkResp 400 (strBytes "Missing headers") 14, store)
        | some he =>
          let cl := get_content_length request
          if cl < 0 ∨ 8192 ≤ cl then
            (mkResp 411 (strBytes "Invalid Content-Length") 20, store)
          else
            let cln := cl.toNat
            let body := (request.drop (he + 4)).take cln
            match scan.1 with
            | some i =>
              (mkResp 204 [] 0,
                listModify (fun r =>
                  { r with content := padContent body, content_length := cln }) i store)
            | none =>
              match scan.2 with
              | some j =>
                (mkResp 201 [] 0,
                  listModify (fun _ =>
                    ⟨path.take 255, padContent body, true, cln⟩) j store)
              | none => (mkResp 507 [] 0, store)
      else if strcaseEq method (strBytes "GET") then
        match scan.1 with
        | some i =>
          let r := store.getD i emptySlot
          (mkResp 200 r.content r.content_length, store)
        | none => (mkResp 404 [] 0, store)
      else if strcaseEq method (strBytes "DELETE") then
        match scan.1 with
        | some i =>
          (mkResp 204 [] 0,
            listModify (fun r =>
              { r with in_use := false, content := List.replicate 8192 0,
                       content_length := 0 }) i store)
        | none => (mkResp 404 [] 0, store)
      else (mkResp 405 [] 0, store)
    else (mkResp 404 [] 0, store)

/-- The clamp applied by the framer (part_000 lines 300-302): a negative
`get_content_length` result is replaced by `0`. -/
def clampCL (z : Int) : Nat :=
  if z < 0 then 0 else z.toNat

/-- One framing attempt of `handle_client`'s inner loop (part_000 lines
291-320): look for the header terminator in the buffer's C string, compute
`total_request_length` from `get_content_length` on the whole buffer
(negative values clamped to 0), and if enough bytes are present, write a NUL
at `buffer[total_request_length]`, hand the buffer to `process_request`, and
shift the remaining bytes to the front. Returns the framed byte range and
the buffer contents after the shift (`none` when no complete request is
buffered). -/
def frameStep (buffer : List Nat) : Option (List Nat × List Nat) :=
  match strstr (cString buffer) crlf2B with
  | none => none
  | some i =>
    let total := i + 4 + clampCL (get_content_length buffer)
    if buffer.length < total then none
    else
      let b2 := if total < buffer.length then buffer.set total 0 else buffer
      some (b2.take total, b2.drop total)

/-- The frames extracted by draining the buffer: `handle_client`'s inner
`while (1)` loop, keeping the frames and the leftover bytes. The first
argument is structural fuel; each extracted frame is at least 4 bytes, so
fuel `buffer.length` never runs out (at fuel 0 the buffer is empty and the
loop would exit anyway). -/
def frameDrainF : Nat → List Nat → List (List Nat) × List Nat
  | 0, buf => ([], buf)
  | fuel + 1, buf =>
    match frameStep buf with
    | none => ([], buf)
    | some (f, rest) =>
      let d := frameDrainF fuel rest
      (f :: d.1, d.2)

def frameDrain (buffer : List Nat) : List (List Nat) × List Nat :=
  frameDrainF buffer.length buffer

/-- Feeding successive `recv` chunks into the connection buffer, draining
after each one (part_000 lines 276-322). Returns all frames and the final
buffer contents. -/
def feedAux : List (List Nat) → List Nat → List (List Nat) × List Nat
  | [], buf => ([], buf)
  | c :: cs, buf =>
    let d := frameDrain (buf ++ c)
    let d2 := feedAux cs d.2
    (d.1 ++ d2.1, d2.2)

/-- A whole connection: chunks fed into an initially empty buffer. -/
def feedChunks (chunks : List (List Nat)) : List (List Nat) × List Nat :=
  feedAux chunks []

/-- The store invariant of spec 3: at most one in-use slot holds a given
path. Stated over positions of the slot array. -/
def UniqueStore (s : List DynRes) : Prop :=
  ∀ j, j < s.length → ∀ i, i < j →
    (s.getD i emptySlot).in_use = true → (s.getD j emptySlot).in_use = true →
    (s.getD i emptySlot).path ≠ (s.getD j emptySlot).path

instance (s : List DynRes) : Decidable (UniqueStore s) := by
  unfold UniqueStore
  infer_instance

/-! ## Library lemmas about the byte-string primitives -/

theorem listPrefix_iff_append (n l : List Nat) :
    listPrefix n l = true ↔ ∃ t, l = n ++ t := by
  induction n generalizing l with
  | nil => simp [listPrefix]
  | cons a n ih =>
    cases l with
    | nil => simp [listPrefix]
    | cons b l =>
      simp only [listPrefix, Bool.and_eq_true, decide_eq_true_eq, ih, List.cons_append,
        List.cons.injEq]
      constructor
      · rintro ⟨rfl, t, rfl⟩; exact ⟨t, rfl, rfl⟩
      · rintro ⟨t, rfl, rfl⟩; exact ⟨rfl, t, rfl⟩

theorem listPrefix_length {n l : List Nat} (h : listPrefix n l = true) :
    n.length ≤ l.length := by
  rcases (listPrefix_iff_append n l).1 h with ⟨t, rfl⟩
  simp

theorem strstrAux_some {needle : List Nat} :
    ∀ {hay : List Nat} {i j : Nat}, strstrAux needle hay i = some j →
      i ≤ j ∧ listPrefix needle (hay.drop (j - i)) = true ∧
        ∀ k < j - i, listPrefix needle (hay.drop k) = false := by
  intro hay
  induction hay with
  | nil =>
    intro i j h
    rw [strstrAux] at h
    by_cases hp : listPrefix needle [] = true
    · simp [hp] at h
      subst h
      simpa using hp
    · simp [Bool.not_eq_true] at hp
      simp [hp] at h
  | cons a t ih =>
    intro i j h
    rw [strstrAux] at h
    by_cases hp : listPrefix needle (a :: t) = true
    · simp [hp] at h
      subst h
      simpa using hp
    · simp only [Bool.not_eq_true] at hp
      simp only [hp, if_false] at h
      obtain ⟨hij, hpre, hmin⟩ := ih h
      refine ⟨by omega, ?_, ?_⟩
      · have : j - i = (j - (i + 1)) + 1 := by omega
        rw [this]
        simpa using hpre
      · intro k hk
        cases k with
        | zero => simpa using hp
        | succ k =>
          have : k < j - (i + 1) := by omega
          simpa using hmin k this

theorem strstr_some {hay needle : List Nat} {j : Nat} (h : strstr hay needle = some j) :
    listPrefix needle (hay.drop j) = true ∧ ∀ k < j, listPrefix needle (hay.drop k) = false := by
  obtain ⟨_, hpre, hmin⟩ := strstrAux_some h
  simpa using ⟨hpre, hmin⟩

theorem strstrAux_none {needle : List Nat} :
    ∀ {hay : List Nat} {i : Nat}, strstrAux needle hay i = none →
      ∀ k, listPrefix needle (hay.drop k) = false := by
  intro hay
  induction hay with
  | nil =>
    intro i h k
    rw [strstrAux] at h
    by_cases hp : listPrefix needle [] = true
    · simp [hp] at h
    · simpa [List.drop_nil] using hp
  | cons a t ih =>
    intro i h k
    rw [strstrAux] at h
    by_cases hp : listPrefix needle (a :: t) = true
    · simp [hp] at h
    · simp only [Bool.not_eq_true] at hp
      simp only [hp, if_false] at h
      cases k with
      | zero => simpa using hp
      | succ k => simpa using ih h k

theorem strstr_none {hay needle : List Nat} (h : strstr hay needle = none) :
    ∀ k, listPrefix needle (hay.drop k) = false :=
  strstrAux_none h

theorem strstrAux_isSome {needle : List Nat} :
    ∀ {hay : List Nat} {i k : Nat}, listPrefix needle (hay.drop k) = true →
      ∃ j, strstrAux needle hay i = some j := by
  intro hay
  induction hay with
  | nil =>
    intro i k h
    rw [List.drop_nil] at h
    exact ⟨i, by rw [strstrAux]; simp [h]⟩
  | cons a t ih =>
    intro i k h
    rw [strstrAux]
    by_cases hp : listPrefix needle (a :: t) = true
    · exact ⟨i, by simp [hp]⟩
    · simp only [Bool.not_eq_true] at hp
      simp only [hp, if_false]
      cases k with
      | zero => simp only [List.drop_zero] at h; rw [h] at hp; cases hp
      | succ k => exact ih (by simpa using h)

theorem strstr_isSome {hay needle : List Nat} {k : Nat}
    (h : listPrefix needle (hay.drop k) = true) :
    ∃ j, strstr hay needle = some j :=
  strstrAux_isSome h

theorem strstr_some_le {hay needle : List Nat} {j : Nat} (hne : needle ≠ [])
    (h : strstr hay needle = some j) : j + needle.length ≤ hay.length := by
  obtain ⟨hpre, -⟩ := strstr_some h
  have hlen : needle.length ≤ (hay.drop j).length := listPrefix_length hpre
  rw [List.length_drop] at hlen
  have hj : j < hay.length := by
    by_contra hge
    push_neg at hge
    rw [List.drop_eq_nil_of_le hge] at hpre
    rcases (listPrefix_iff_append _ _).1 hpre with ⟨t, ht⟩
    cases needle with
    | nil => exact hne rfl
    | cons a n => simp at ht
  omega

theorem crlfB_eq : crlfB = [13, 10] := rfl

theorem crlf2B_eq : crlf2B = [13, 10, 13, 10] := rfl

/-! ## General helper lemmas -/

theorem take_set_self (l : List Nat) (n : Nat) (x : Nat) :
    (l.set n x).take n = l.take n := by
  induction l generalizing n with
  | nil => simp
  | cons a t ih =>
    cases n with
    | zero => simp
    | succ n => simpa using ih n

theorem strcaseEq_congr {a b : List Nat} (c : List Nat)
    (h : strcaseEq a b = true) : strcaseEq a c = strcaseEq b c := by
  unfold strcaseEq at h ⊢
  simp only [decide_eq_true_eq] at h
  rw [h]

theorem strBytes_static : strBytes "/static/" = [47, 115, 116, 97, 116, 105, 99, 47] := rfl

theorem strBytes_dynamic : strBytes "/dynamic/" = [47, 100, 121, 110, 97, 109, 105, 99, 47] := rfl

theorem dyn_not_static {p : List Nat}
    (h : listPrefix (strBytes "/dynamic/") p = true) :
    listPrefix (strBytes "/static/") p = false := by
  rcases (listPrefix_iff_append _ _).1 h with ⟨t, rfl⟩
  rw [strBytes_static, strBytes_dynamic]
  simp [listPrefix]

theorem validate_headers_terminator {r : List Nat}
    (h : validate_headers r = true) :
    ∃ e, strstr (cString r) crlf2B = some e := by
  simp only [validate_headers] at h
  cases h0 : strstr (cString r) crlfB with
  | none => rw [h0] at h; cases h
  | some a =>
    rw [h0] at h
    cases he : strstr (cString r) crlf2B with
    | none => rw [he] at h; cases h
    | some e => exact ⟨e, rfl⟩

theorem clampCL_of_large {z : Int} (h : 8192 ≤ z) : 8192 ≤ clampCL z := by
  unfold clampCL
  rw [if_neg (by omega)]
  omega

/-! ## Store and dispatch lemmas -/

theorem listModify_length (f : DynRes → DynRes) :
    ∀ (n : Nat) (l : List DynRes), (listModify f n l).length = l.length := by
  intro n l
  induction l generalizing n with
  | nil => cases n <;> rfl
  | cons r t ih =>
    cases n with
    | zero => rfl
    | succ n => simpa [listModify] using ih n

theorem getD_listModify_eq (f : DynRes → DynRes) :
    ∀ (l : List DynRes) (n : Nat), n < l.length →
      (listModify f n l).getD n emptySlot = f (l.getD n emptySlot) := by
  intro l
  induction l with
  | nil => intro n hn; cases hn
  | cons r t ih =>
    intro n hn
    cases n with
    | zero => rfl
    | succ n => simpa [listModify] using ih n (by simpa using hn)

theorem getD_listModify_ne (f : DynRes → DynRes) :
    ∀ (l : List DynRes) (n k : Nat), k ≠ n →
      (listModify f n l).getD k emptySlot = l.getD k emptySlot := by
  intro l
  induction l with
  | nil => intro n k _; cases n <;> rfl
  | cons r t ih =>
    intro n k hk
    cases n with
    | zero =>
      cases k with
      | zero => exact absurd rfl hk
      | succ k => rfl
    | succ n =>
      cases k with
      | zero => rfl
      | succ k => simpa [listModify] using ih n k (by omega)

theorem scanSlots_acc_some :
    ∀ (t : List DynRes) (p : List Nat) (k x : Nat),
      (scanSlots t p k (some x)).2 = some x := by
  intro t
  induction t with
  | nil => intro p k x; rfl
  | cons r t ih =>
    intro p k x
    by_cases hu : r.in_use
    · by_cases hp : r.path = p
      · simp [scanSlots, hu, hp]
      · simpa [scanSlots, hu, hp] using ih p (k + 1) x
    · simpa [scanSlots, hu] using ih p (k + 1) x

theorem scanSlots_found :
    ∀ (t : List DynRes) (p : List Nat) (k : Nat) (a : Option Nat) (i : Nat),
      (scanSlots t p k a).1 = some i →
      k ≤ i ∧ i - k < t.length ∧ (t.getD (i - k) emptySlot).in_use = true ∧
        (t.getD (i - k) emptySlot).path = p := by
  intro t
  induction t with
  | nil => intro p k a i h; cases h
  | cons r t ih =>
    intro p k a i h
    by_cases hu : r.in_use
    · by_cases hp : r.path = p
      · simp [scanSlots, hu, hp] at h
        subst h
        simpa using ⟨hu, hp⟩
      · simp only [scanSlots, hu, if_true, hp, if_false] at h
        obtain ⟨hk, hlt, hgu, hgp⟩ := ih p (k + 1) a i h
        have hik : i - k = (i - (k + 1)) + 1 := by omega
        rw [hik]
        exact ⟨by omega, by simpa using hlt, by simpa using hgu, by simpa using hgp⟩
    · simp only [scanSlots, hu, if_false] at h
      obtain ⟨hk, hlt, hgu, hgp⟩ := ih p (k + 1) _ i h
      have hik : i - k = (i - (k + 1)) + 1 := by omega
      rw [hik]
      exact ⟨by omega, by simpa using hlt, by simpa using hgu, by simpa using hgp⟩

theorem scanSlots_none :
    ∀ (t : List DynRes) (p : List Nat) (k : Nat) (a : Option Nat),
      (scanSlots t p k a).1 = none →
      ∀ r ∈ t, r.in_use = true → r.path ≠ p := by
  intro t
  induction t with
  | nil => intro p k a _ r hr; cases hr
  | cons r t ih =>
    intro p k a h s hs hsu
    by_cases hu : r.in_use
    · by_cases hp : r.path = p
      · simp [scanSlots, hu, hp] at h
      · simp only [scanSlots, hu, if_true, hp, if_false] at h
        rw [List.mem_cons] at hs
        rcases hs with rfl | hs
        · exact hp
        · exact ih p (k + 1) a h s hs hsu
    · simp only [scanSlots, hu, Bool.false_eq_true, if_false] at h
      rw [List.mem_cons] at hs
      rcases hs with rfl | hs
      · rw [hsu] at hu; exact absurd rfl hu
      · exact ih p (k + 1) _ h s hs hsu

theorem scanSlots_avail :
    ∀ (t : List DynRes) (p : List Nat) (k j : Nat),
      (scanSlots t p k none).2 = some j →
      k ≤ j ∧ j - k < t.length ∧ (t.getD (j - k) emptySlot).in_use = false ∧
        ∀ x < j - k, (t.getD x emptySlot).in_use = true := by
  intro t
  induction t with
  | nil => intro p k j h; cases h
  | cons r t ih =>
    intro p k j h
    by_cases hu : r.in_use
    · by_cases hp : r.path = p
      · simp [scanSlots, hu, hp] at h
      · simp only [scanSlots, hu, if_true, hp, if_false] at h
        obtain ⟨hk, hlt, hfree, hbefore⟩ := ih p (k + 1) j h
        have hjk : j - k = (j - (k + 1)) + 1 := by omega
        rw [hjk]
        refine ⟨by omega, by simpa using hlt, by simpa using hfree, ?_⟩
        intro x hx
        cases x with
        | zero => simpa using hu
        | succ x =>
          have : x < j - (k + 1) := by omega
          simpa using hbefore x this
    · simp only [scanSlots, hu, Bool.false_eq_true, if_false] at h
      rw [scanSlots_acc_some] at h
      injection h with h
      subst h
      refine ⟨Nat.le_refl k, by simp, by simpa [Nat.sub_self] using hu, ?_⟩
      intro x hx
      omega

theorem scanSlots_full :
    ∀ (t : List DynRes) (p : List Nat) (k : Nat) (a : Option Nat),
      (∀ r ∈ t, r.in_use = true) → (∀ r ∈ t, r.path ≠ p) →
      scanSlots t p k a = (none, a) := by
  intro t
  induction t with
  | nil => intro p k a _ _; rfl
  | cons r t ih =>
    intro p k a hall hne
    have hu : r.in_use = true := hall r (by simp)
    have hp : r.path ≠ p := hne r (by simp)
    simp only [scanSlots, hu, if_true, hp, if_false]
    exact ih p (k + 1) a (fun s hs => hall s (by simp [hs]))
      (fun s hs => hne s (by simp [hs]))

theorem scanSlots_modify_invar {f : DynRes → DynRes}
    (hf : ∀ r, (f r).in_use = r.in_use ∧ (f r).path = r.path) :
    ∀ (t : List DynRes) (n : Nat) (p : List Nat) (k : Nat) (a : Option Nat),
      scanSlots (listModify f n t) p k a = scanSlots t p k a := by
  intro t
  induction t with
  | nil => intro n p k a; cases n <;> rfl
  | cons r t ih =>
    intro n p k a
    cases n with
    | zero =>
      show scanSlots (f r :: t) p k a = scanSlots (r :: t) p k a
      simp only [scanSlots, (hf r).1, (hf r).2]
    | succ n =>
      show scanSlots (r :: listModify f n t) p k a = scanSlots (r :: t) p k a
      by_cases hu : r.in_use
      · by_cases hp : r.path = p
        · simp [scanSlots, hu, hp]
        · simpa [scanSlots, hu, hp] using ih n p (k + 1) a
      · simpa [scanSlots, hu] using ih n p (k + 1) _

/-- After `Create` writes `newR` into free slot `j` (all earlier slots being
in use with other paths), the scan finds exactly slot `j`. -/
theorem scanSlots_after_create (newR : DynRes)
    (hnu : newR.in_use = true) :
    ∀ (t : List DynRes) (p : List Nat) (j k : Nat) (a : Option Nat),
      newR.path = p →
      j < t.length →
      (∀ x < j, (t.getD x emptySlot).in_use = true) →
      (∀ x < j, (t.getD x emptySlot).path ≠ p) →
      (scanSlots (listModify (fun _ => newR) j t) p k a).1 = some (k + j) := by
  intro t
  induction t with
  | nil => intro p j k a _ hj; cases hj
  | cons r t ih =>
    intro p j k a hnp hj hall hne
    cases j with
    | zero =>
      show (scanSlots (newR :: t) p k a).1 = some (k + 0)
      simp [scanSlots, hnu, hnp]
    | succ j =>
      show (scanSlots (r :: listModify (fun _ => newR) j t) p k a).1 = some (k + (j + 1))
      have hu : r.in_use = true := by simpa using hall 0 (by omega)
      have hp : r.path ≠ p := by simpa using hne 0 (by omega)
      simp only [scanSlots, hu, if_true, hp, if_false]
      have := ih p j (k + 1) a hnp (by simpa using hj)
        (fun x hx => by simpa using hall (x + 1) (by omega))
        (fun x hx => by simpa using hne (x + 1) (by omega))
      rw [this]
      congr 1
      omega

/-! ## Branch-reduction lemmas for the dispatcher -/

theorem put_branch (request : List Nat) (store : List DynRes) (m p v : List Nat) (he : Nat)
    (hparse : sscanf3 (cString request) = some (m, p, v))
    (hput : strcaseEq m (strBytes "PUT") = true)
    (hdyn : listPrefix (strBytes "/dynamic/") p = true)
    (hcnt : count_headers request ≤ 40)
    (hval : validate_headers request = true)
    (hhe : strstr (cString request) crlf2B = some he)
    (hcl0 : 0 ≤ get_content_length request)
    (hcl1 : get_content_length request < 8192) :
    process_request request store =
      match (scanSlots store p 0 none).1 with
      | some i =>
        (mkResp 204 [] 0,
          listModify (fun r =>
            { r with
              content := padContent
                ((request.drop (he + 4)).take (get_content_length request).toNat),
              content_length := (get_content_length request).toNat }) i store)
      | none =>
        match (scanSlots store p 0 none).2 with
        | some j =>
          (mkResp 201 [] 0,
            listModify (fun _ =>
              ⟨p.take 255,
               padContent ((request.drop (he + 4)).take (get_content_length request).toNat),
               true, (get_content_length request).toNat⟩) j store)
        | none => (mkResp 507 [] 0, store) := by
  have hnothead : strcaseEq m (strBytes "HEAD") = false := by
    rw [strcaseEq_congr _ hput]; decide
  have hnotstatic := dyn_not_static hdyn
  simp only [process_request, hparse]
  rw [if_neg (show ¬ (40 < count_headers request) by omega)]
  simp only [hval, hnothead, hnotstatic, hdyn, hput, Bool.true_eq_false,
    Bool.false_eq_true, if_false, eq_self_iff_true, if_true, hhe]
  rw [if_neg (show ¬ (get_content_length request < 0 ∨
    8192 ≤ get_content_length request) by omega)]

theorem get_branch (request : List Nat) (store : List DynRes) (m p v : List Nat)
    (hparse : sscanf3 (cString request) = some (m, p, v))
    (hget : strcaseEq m (strBytes "GET") = true)
    (hdyn : listPrefix (strBytes "/dynamic/") p = true)
    (hcnt : count_headers request ≤ 40)
    (hval : validate_headers request = true) :
    process_request request store =
      match (scanSlots store p 0 none).1 with
      | some i =>
        (mkResp 200 (store.getD i emptySlot).content
          (store.getD i emptySlot).content_length, store)
      | none => (mkResp 404 [] 0, store) := by
  have hnothead : strcaseEq m (strBytes "HEAD") = false := by
    rw [strcaseEq_congr _ hget]; decide
  have hnotput : strcaseEq m (strBytes "PUT") = false := by
    rw [strcaseEq_congr _ hget]; decide
  have hnotstatic := dyn_not_static hdyn
  simp only [process_request, hparse]
  rw [if_neg (show ¬ (40 < count_headers request) by omega)]
  simp only [hval, hnothead, hnotput, hnotstatic, hdyn, hget, Bool.true_eq_false,
    Bool.false_eq_true, if_false, eq_self_iff_true, if_true]

theorem delete_branch (request : List Nat) (store : List DynRes) (m p v : List Nat)
    (hparse : sscanf3 (cString request) = some (m, p, v))
    (hdel : strcaseEq m (strBytes "DELETE") = true)
    (hdyn : listPrefix (strBytes "/dynamic/") p = true)
    (hcnt : count_headers request ≤ 40)
    (hval : validate_headers request = true) :
    process_request request store =
      match (scanSlots store p 0 none).1 with
      | some i =>
        (mkResp 204 [] 0,
          listModify (fun r =>
            { r with in_use := false, content := List.replicate 8192 0,
                     content_length := 0 }) i store)
      | none => (mkResp 404 [] 0, store) := by
  have hnothead : strcaseEq m (strBytes "HEAD") = false := by
    rw [strcaseEq_congr _ hdel]; decide
  have hnotput : strcaseEq m (strBytes "PUT") = false := by
    rw [strcaseEq_congr _ hdel]; decide
  have hnotget : strcaseEq m (strBytes "GET") = false := by
    rw [strcaseEq_congr _ hdel]; decide
  have hnotstatic := dyn_not_static hdyn
  simp only [process_request, hparse]
  rw [if_neg (show ¬ (40 < count_headers request) by omega)]
  simp only [hval, hnothead, hnotput, hnotget, hnotstatic, hdyn, hdel,
    Bool.true_eq_false, Bool.false_eq_true, if_false, eq_self_iff_true, if_true]

/-! ## Claim C1 -/

/-- C1 counterexample: a buffer whose first (and only) header block contains
no `Content-Length` header, followed by the partially received text
`"Content-Length: 99"` of a later request. The claim says the framer yields
a request: the terminator is present at offset 15 and the buffer holds at
least `headers_length = 19` bytes while the header block declares no body.
The code does not: `get_content_length` (line 298) scans the whole buffer,
finds the later `Content-Length: 99`, and keeps waiting for 99 body bytes. -/
theorem c1_counterexample :
    strstr (cString (strBytes "GET /a HTTP/1.1\r\n\r\nContent-Length: 99")) crlf2B = some 15 ∧
    strcasestr ((strBytes "GET /a HTTP/1.1\r\n\r\nContent-Length: 99").take 19)
      (strBytes "Content-Length:") = none ∧
    19 ≤ (strBytes "GET /a HTTP/1.1\r\n\r\nContent-Length: 99").length ∧
    get_content_length (strBytes "GET /a HTTP/1.1\r\n\r\nContent-Length: 99") = 99 ∧
    frameStep (strBytes "GET /a HTTP/1.1\r\n\r\nContent-Length: 99") = none := by
  refine ⟨by decide, by decide, by decide, by decide, by decide⟩

/-- C1 amended: the framer yields a request exactly when the buffer's
C string contains the two-CRLF terminator (first occurrence at `i`) and the
buffer holds at least `i + 4 + content_length` bytes, where `content_length`
is parsed at the first case-insensitive occurrence of "Content-Length:"
anywhere in the buffered C string — not only in the current request's header
block — with a missing, unparsable or negative value clamped to body length
0; the yielded frame is exactly that byte range, and with fewer bytes
buffered nothing is dispatched. -/
theorem c1_framing_characterization (B : List Nat) (i : Nat)
    (hterm : strstr (cString B) crlf2B = some i) :
    ((frameStep B).isSome = true ↔
      i + 4 + clampCL (get_content_length B) ≤ B.length) ∧
    (∀ f rest, frameStep B = some (f, rest) →
      f = B.take (i + 4 + clampCL (get_content_length B))) := by
  simp only [frameStep, hterm]
  by_cases hlt : B.length < i + 4 + clampCL (get_content_length B)
  · rw [if_pos hlt]
    refine ⟨⟨fun h => by simp at h, fun h => absurd h (by omega)⟩, ?_⟩
    intro f rest h
    cases h
  · rw [if_neg hlt]
    refine ⟨⟨fun _ => by omega, fun _ => rfl⟩, ?_⟩
    intro f rest h
    have hf : f = (if i + 4 + clampCL (get_content_length B) < B.length then
        B.set (i + 4 + clampCL (get_content_length B)) 0 else B).take
          (i + 4 + clampCL (get_content_length B)) := by
      cases h; rfl
    rw [hf]
    by_cases hc : i + 4 + clampCL (get_content_length B) < B.length
    · rw [if_pos hc, take_set_self]
    · rw [if_neg hc]

/-- C1 witness: a complete request with no Content-Length header is framed
as soon as its terminator is buffered. -/
theorem c1_witness :
    (frameStep (strBytes "GET / HTTP/1.1\r\n\r\n")).isSome = true :=
  (c1_framing_characterization (strBytes "GET / HTTP/1.1\r\n\r\n") 14 (by decide)).1.mpr
    (by decide)

/-! ## Claim C2 -/

/-- C2 counterexample: two identical pipelined `GET /static/bar` requests.
Delivered as two chunks split at the request boundary, the framer yields
both requests; delivered as one chunk, it yields only the first — framing
the first request writes a NUL over the first byte of the second
(`buffer[total_request_length] = '\0'`, line 309), after which `strstr` on
the buffer sees an empty C string and never finds another terminator. -/
theorem c2_counterexample :
    (feedChunks [strBytes "GET /static/bar HTTP/1.1\r\n\r\n",
        strBytes "GET /static/bar HTTP/1.1\r\n\r\n"]).1.length = 2 ∧
    (feedChunks [strBytes "GET /static/bar HTTP/1.1\r\n\r\n" ++
        strBytes "GET /static/bar HTTP/1.1\r\n\r\n"]).1.length = 1 ∧
    (feedChunks [strBytes "GET /static/bar HTTP/1.1\r\n\r\n",
        strBytes "GET /static/bar HTTP/1.1\r\n\r\n"]).1 ≠
      (feedChunks [strBytes "GET /static/bar HTTP/1.1\r\n\r\n" ++
        strBytes "GET /static/bar HTTP/1.1\r\n\r\n"]).1 := by
  refine ⟨by decide, by decide, by decide⟩

/-! ## Claim C3 -/

/-- C3 counterexample: a GET request whose `Content-Length` is `-5`. The
claim says a negative value is a framing error and never silently clamped;
the framer (lines 300-302) clamps it to body length 0, frames the request,
and `process_request` serves it normally with 200 — no error response, no
dropped connection. -/
theorem c3_counterexample :
    get_content_length
      (strBytes "GET /static/foo HTTP/1.1\r\nContent-Length: -5\r\n\r\n") = -5 ∧
    frameStep (strBytes "GET /static/foo HTTP/1.1\r\nContent-Length: -5\r\n\r\n") =
      some (strBytes "GET /static/foo HTTP/1.1\r\nContent-Length: -5\r\n\r\n", []) ∧
    (process_request (strBytes "GET /static/foo HTTP/1.1\r\nContent-Length: -5\r\n\r\n")
      []).1.status = 200 := by
  refine ⟨by decide, by decide, by decide⟩

/-- C3 amended: the framer clamps a negative (or missing/non-numeric, both
reported as `-1`) Content-Length to body length 0 and frames the request;
only a PUT to a dynamic path then receives an error — 411 with no state
change — for a negative or buffer-exceeding value (lines 214-217), while a
Content-Length at least the buffer size can never complete a frame inside
the 8191-byte buffer, so such a request is never dispatched at all. -/
theorem c3_invalid_length_handling :
    (∀ request store m p v,
      sscanf3 (cString request) = some (m, p, v) →
      strcaseEq m (strBytes "PUT") = true →
      listPrefix (strBytes "/dynamic/") p = true →
      count_headers request ≤ 40 →
      validate_headers request = true →
      (get_content_length request < 0 ∨ 8192 ≤ get_content_length request) →
      (process_request request store).1.status = 411 ∧
        (process_request request store).2 = store) ∧
    (∀ B, B.length ≤ 8191 → 8192 ≤ get_content_length B → frameStep B = none) := by
  constructor
  · intro request store m p v hparse hput hdyn hcnt hval hbad
    obtain ⟨e, he⟩ := validate_headers_terminator hval
    have hnothead : strcaseEq m (strBytes "HEAD") = false := by
      rw [strcaseEq_congr _ hput]; decide
    have hnotstatic := dyn_not_static hdyn
    simp only [process_request, hparse]
    rw [if_neg (show ¬ (40 < count_headers request) by omega)]
    simp only [hval, hnothead, hnotstatic, hdyn, hput, Bool.true_eq_false,
      Bool.false_eq_true, if_false, eq_self_iff_true, if_true, he]
    rw [if_pos hbad]
    exact ⟨rfl, rfl⟩
  · intro B hlen hcl
    cases hs : strstr (cString B) crlf2B with
    | none => simp only [frameStep, hs]
    | some i =>
      have := clampCL_of_large hcl
      simp only [frameStep, hs]
      rw [if_pos (by omega)]

/-- C3 witness: a PUT with Content-Length `-1` gets 411 and leaves the
store unchanged; a buffer declaring 9000 body bytes never frames. -/
theorem c3_witness :
    (process_request (strBytes "PUT /dynamic/x HTTP/1.1\r\nContent-Length: -1\r\n\r\n")
        [emptySlot]).1.status = 411 ∧
    (process_request (strBytes "PUT /dynamic/x HTTP/1.1\r\nContent-Length: -1\r\n\r\n")
        [emptySlot]).2 = [emptySlot] ∧
    frameStep (strBytes "PUT /dynamic/x HTTP/1.1\r\nContent-Length: 9000\r\n\r\n") = none := by
  refine ⟨?_, ?_, c3_invalid_length_handling.2 _ (by decide) (by decide)⟩
  · exact (c3_invalid_length_handling.1 _ [emptySlot] (strBytes "PUT")
      (strBytes "/dynamic/x") (strBytes "HTTP/1.1") (by decide) (by decide)
      (by decide) (by decide) (by decide) (Or.inl (by decide))).1
  · exact (c3_invalid_length_handling.1 _ [emptySlot] (strBytes "PUT")
      (strBytes "/dynamic/x") (strBytes "HTTP/1.1") (by decide) (by decide)
      (by decide) (by decide) (by decide) (Or.inl (by decide))).2

/-! ## Claim C8 -/

/-- C8: the claim says every response's Content-Length is computed from the
actual body and never taken from a caller-supplied mismatched value. The
code is wrong: `process_request` (line 151) passes the literal `21` for the
22-byte body "Invalid Request Format", so the declared length and the bytes
put on the wire are 21 while the intended body has 22 bytes — the error
message is silently truncated (`"Invalid Request Forma"`). The same slip
occurs at lines 156, 160, 207 and 216. -/
theorem c8_truncated_error_body :
    (process_request (strBytes "BAD\r\n\r\n") []).1 =
      ⟨400, 21, strBytes "Invalid Request Forma"⟩ ∧
    (strBytes "Invalid Request Format").length = 22 ∧
    (process_request (strBytes "BAD\r\n\r\n") []).1.body ≠
      strBytes "Invalid Request Format" := by
  refine ⟨by decide, by decide, by decide⟩

/-! ## Claim C9 -/

/-- C9 counterexample: the request whose first line is
`"GET /static/foo"` (two whitespace-separated tokens, no version) followed
by a header line. The request line does not decompose into three tokens —
`sscanf3` on the line alone fails — yet the server does not answer 400: the
`sscanf` in `process_request` (line 149) scans the whole request, takes
`"Host:"` as the version token, and serves the static resource with 200. -/
theorem c9_counterexample :
    strstr (strBytes "GET /static/foo\r\nHost: x\r\n\r\n") crlfB = some 15 ∧
    sscanf3 ((strBytes "GET /static/foo\r\nHost: x\r\n\r\n").take 15) = none ∧
    (process_request (strBytes "GET /static/foo\r\nHost: x\r\n\r\n") []).1.status = 200 := by
  refine ⟨by decide, by decide, by decide⟩

/-- C9 amended: the tokens are drawn from the whole framed request by
`sscanf("%15s %255s %15s")`, not from the request line alone; whenever fewer
than three tokens can be read from the request, the server responds 400
`"Invalid Request Format"` (with the miscounted length 21) and the dynamic
store is untouched — no store access happens on this path. -/
theorem c9_parse_failure_400 (request : List Nat) (store : List DynRes)
    (h : sscanf3 (cString request) = none) :
    process_request request store =
      (mkResp 400 (strBytes "Invalid Request Format") 21, store) := by
  simp only [process_request, h]

/-- C9 witness: a one-token request is rejected with 400 and the store is
unchanged. -/
theorem c9_witness :
    process_request (strBytes "HELLO\r\n\r\n") [emptySlot] =
      (mkResp 400 (strBytes "Invalid Request Format") 21, [emptySlot]) :=
  c9_parse_failure_400 (strBytes "HELLO\r\n\r\n") [emptySlot] (by decide)

/-! ## Claim C4 -/

/-- C4: for every well-framed PUT to a `/dynamic/*` path with valid body
framing (Content-Length in `[0, 8192)`): if the scan finds an in-use slot
with that path, its content is overwritten in place (path and `in_use`
untouched) and the status is 204; if no slot matches and a free slot
exists, that slot is populated with the path and body and the status is
201; if no slot matches and none is free, the status is 507 and the store
is unchanged. -/
theorem c4_put_dispatch (request : List Nat) (store : List DynRes)
    (m p v : List Nat) (he : Nat)
    (hparse : sscanf3 (cString request) = some (m, p, v))
    (hput : strcaseEq m (strBytes "PUT") = true)
    (hdyn : listPrefix (strBytes "/dynamic/") p = true)
    (hcnt : count_headers request ≤ 40)
    (hval : validate_headers request = true)
    (hhe : strstr (cString request) crlf2B = some he)
    (hcl0 : 0 ≤ get_content_length request)
    (hcl1 : get_content_length request < 8192) :
    (∀ i, (scanSlots store p 0 none).1 = some i →
      process_request request store =
        (mkResp 204 [] 0,
          listModify (fun r =>
            { r with
              content := padContent
                ((request.drop (he + 4)).take (get_content_length request).toNat),
              content_length := (get_content_length request).toNat }) i store)) ∧
    (∀ j, (scanSlots store p 0 none).1 = none →
      (scanSlots store p 0 none).2 = some j →
      process_request request store =
        (mkResp 201 [] 0,
          listModify (fun _ =>
            ⟨p.take 255,
             padContent ((request.drop (he + 4)).take (get_content_length request).toNat),
             true, (get_content_length request).toNat⟩) j store)) ∧
    ((scanSlots store p 0 none).1 = none → (scanSlots store p 0 none).2 = none →
      process_request request store = (mkResp 507 [] 0, store)) := by
  have hb := put_branch request store m p v he hparse hput hdyn hcnt hval hhe hcl0 hcl1
  refine ⟨?_, ?_, ?_⟩
  · intro i hi
    rw [hb, hi]
  · intro j h1 h2
    rw [hb, h1, h2]
  · intro h1 h2
    rw [hb, h1, h2]

/-- C4 witness: one PUT against a store holding the path (204), a store
with a free slot (201), and a full store without the path (507). -/
theorem c4_witness :
    (process_request (strBytes "PUT /dynamic/x HTTP/1.1\r\nContent-Length: 2\r\n\r\nhi")
        [⟨strBytes "/dynamic/x", [97, 98], true, 2⟩]).1.status = 204 ∧
    (process_request (strBytes "PUT /dynamic/x HTTP/1.1\r\nContent-Length: 2\r\n\r\nhi")
        [emptySlot]).1.status = 201 ∧
    (process_request (strBytes "PUT /dynamic/x HTTP/1.1\r\nContent-Length: 2\r\n\r\nhi")
        [⟨strBytes "/dynamic/y", [], true, 0⟩]).1.status = 507 := by
  refine ⟨?_, ?_, ?_⟩
  · rw [(c4_put_dispatch _ _ (strBytes "PUT") (strBytes "/dynamic/x")
      (strBytes "HTTP/1.1") 42 (by decide) (by decide) (by decide) (by decide)
      (by decide) (by decide) (by decide) (by decide)).1 0 (by decide)]
    rfl
  · rw [(c4_put_dispatch _ _ (strBytes "PUT") (strBytes "/dynamic/x")
      (strBytes "HTTP/1.1") 42 (by decide) (by decide) (by decide) (by decide)
      (by decide) (by decide) (by decide) (by decide)).2.1 0 (by decide) (by decide)]
    rfl
  · rw [(c4_put_dispatch _ _ (strBytes "PUT") (strBytes "/dynamic/x")
      (strBytes "HTTP/1.1") 42 (by decide) (by decide) (by decide) (by decide)
      (by decide) (by decide) (by decide) (by decide)).2.2 (by decide) (by decide)]
    rfl

/-! ## Claim C5 -/

/-- C5: every request leaves the slot array's length unchanged, so the
store never holds more than its configured capacity of slots; and a
well-framed PUT for a distinct new path against a store whose slots are all
in use answers 507 and leaves every slot unchanged (so all previously
created resources remain readable byte-for-byte). -/
theorem c5_capacity :
    (∀ request store, ((process_request request store).2).length = store.length) ∧
    (∀ request store m p v he,
      sscanf3 (cString request) = some (m, p, v) →
      strcaseEq m (strBytes "PUT") = true →
      listPrefix (strBytes "/dynamic/") p = true →
      count_headers request ≤ 40 →
      validate_headers request = true →
      strstr (cString request) crlf2B = some he →
      0 ≤ get_content_length request →
      get_content_length request < 8192 →
      (∀ r ∈ store, r.in_use = true) →
      (∀ r ∈ store, r.path ≠ p) →
      (process_request request store).1.status = 507 ∧
        (process_request request store).2 = store) := by
  constructor
  · intro request store
    cases hp : sscanf3 (cString request) with
    | none => simp [process_request, hp]
    | some t =>
      obtain ⟨m, pv⟩ := t
      obtain ⟨p, v⟩ := pv
      simp only [process_request, hp]
      repeat' split
      all_goals first | rfl | exact listModify_length _ _ _
  · intro request store m p v he hparse hput hdyn hcnt hval hhe hcl0 hcl1 hfull hne
    have hscan := scanSlots_full store p 0 none hfull hne
    have hb := put_branch request store m p v he hparse hput hdyn hcnt hval hhe hcl0 hcl1
    rw [hb, hscan]
    exact ⟨rfl, rfl⟩

/-- C5 witness: a 2-slot store with both slots in use rejects a PUT for a
third path with 507 and is unchanged. -/
theorem c5_witness :
    (process_request (strBytes "PUT /dynamic/c HTTP/1.1\r\nContent-Length: 0\r\n\r\n")
        [⟨strBytes "/dynamic/a", [], true, 0⟩, ⟨strBytes "/dynamic/b", [], true, 0⟩]).1.status
      = 507 ∧
    (process_request (strBytes "PUT /dynamic/c HTTP/1.1\r\nContent-Length: 0\r\n\r\n")
        [⟨strBytes "/dynamic/a", [], true, 0⟩, ⟨strBytes "/dynamic/b", [], true, 0⟩]).2
      = [⟨strBytes "/dynamic/a", [], true, 0⟩, ⟨strBytes "/dynamic/b", [], true, 0⟩] :=
  c5_capacity.2 _ _ (strBytes "PUT") (strBytes "/dynamic/c") (strBytes "HTTP/1.1") 42
    (by decide) (by decide) (by decide) (by decide) (by decide) (by decide)
    (by decide) (by decide) (by decide) (by decide)

/-! ## Claim C6 -/

theorem scanToken_length_le {w : Nat} {l tok rest : List Nat}
    (h : scanToken w l = some (tok, rest)) : tok.length ≤ w := by
  unfold scanToken at h
  cases hd : l.dropWhile isSpaceB with
  | nil => rw [hd] at h; cases h
  | cons c t =>
    rw [hd] at h
    simp only [Option.some.injEq, Prod.mk.injEq] at h
    obtain ⟨h1, -⟩ := h
    rw [← h1]
    simp [List.length_take]

theorem sscanf3_shape {l m p v : List Nat} (h : sscanf3 l = some (m, p, v)) :
    m.length ≤ 15 ∧ p.length ≤ 255 ∧ v.length ≤ 15 := by
  unfold sscanf3 at h
  cases h1 : scanToken 15 l with
  | none => rw [h1] at h; cases h
  | some t1 =>
    obtain ⟨m1, r1⟩ := t1
    simp only [h1] at h
    cases h2 : scanToken 255 r1 with
    | none => simp only [h2] at h; cases h
    | some t2 =>
      obtain ⟨p1, r2⟩ := t2
      simp only [h2] at h
      cases h3 : scanToken 15 r2 with
      | none => simp only [h3] at h; cases h
      | some t3 =>
        obtain ⟨v1, r3⟩ := t3
        simp only [h3] at h
        simp only [Option.some.injEq, Prod.mk.injEq] at h
        obtain ⟨hm, hp, hv⟩ := h
        subst hm; subst hp; subst hv
        exact ⟨scanToken_length_le h1, scanToken_length_le h2, scanToken_length_le h3⟩

theorem padContent_take (b : List Nat) : (padContent b).take b.length = b := by
  unfold padContent
  exact List.take_left b _

theorem getD_mem_of_lt (l : List DynRes) (n : Nat) (h : n < l.length) :
    l.getD n emptySlot ∈ l := by
  rw [List.getD_eq_getElem l emptySlot h]
  exact List.getElem_mem h

/-- C6: a successful PUT of body `b` to a dynamic path `p` (update or
create) followed by a well-formed GET of the same path returns 200 with
exactly the bytes `b`, whatever was stored under `p` before. -/
theorem c6_put_then_get (store : List DynRes) (rput rget : List Nat)
    (mp p vp mg vg : List Nat) (hep : Nat) (b : List Nat)
    (hparse1 : sscanf3 (cString rput) = some (mp, p, vp))
    (hput : strcaseEq mp (strBytes "PUT") = true)
    (hdyn : listPrefix (strBytes "/dynamic/") p = true)
    (hcnt1 : count_headers rput ≤ 40)
    (hval1 : validate_headers rput = true)
    (hhe1 : strstr (cString rput) crlf2B = some hep)
    (hcl : get_content_length rput = (b.length : Int))
    (hblen : b.length < 8192)
    (hbody : (rput.drop (hep + 4)).take b.length = b)
    (hroom : ¬((scanSlots store p 0 none).1 = none ∧
      (scanSlots store p 0 none).2 = none))
    (hparse2 : sscanf3 (cString rget) = some (mg, p, vg))
    (hget : strcaseEq mg (strBytes "GET") = true)
    (hcnt2 : count_headers rget ≤ 40)
    (hval2 : validate_headers rget = true) :
    (process_request rget (process_request rput store).2).1.status = 200 ∧
    (process_request rget (process_request rput store).2).1.contentLength = b.length ∧
    (process_request rget (process_request rput store).2).1.body = b := by
  have hcl0 : 0 ≤ get_content_length rput := by
    rw [hcl]; exact_mod_cast Nat.zero_le _
  have hcl1 : get_content_length rput < 8192 := by
    rw [hcl]; exact_mod_cast hblen
  have htoNat : (get_content_length rput).toNat = b.length := by rw [hcl]; simp
  have hb := put_branch rput store mp p vp hep hparse1 hput hdyn hcnt1 hval1 hhe1 hcl0 hcl1
  have hple : p.length ≤ 255 := (sscanf3_shape hparse1).2.1
  have hptake : p.take 255 = p := List.take_of_length_le hple
  cases hfound : (scanSlots store p 0 none).1 with
  | some i =>
    have hstore : (process_request rput store).2 =
        listModify (fun r =>
          { r with content := padContent b, content_length := b.length }) i store := by
      rw [hb, hfound]
      simp only [htoNat, hbody]
    have hilt : i < store.length := by
      have := (scanSlots_found store p 0 none i hfound).2.1
      simpa using this
    have hscan' := scanSlots_modify_invar
      (f := fun r => { r with content := padContent b, content_length := b.length })
      (fun r => ⟨rfl, rfl⟩) store i p 0 none
    rw [hstore, get_branch rget _ mg p vg hparse2 hget hdyn hcnt2 hval2, hscan', hfound]
    dsimp only
    rw [getD_listModify_eq _ store i hilt]
    refine ⟨rfl, rfl, ?_⟩
    show (padContent b).take b.length = b
    exact padContent_take b
  | none =>
    obtain ⟨j, hj⟩ : ∃ j, (scanSlots store p 0 none).2 = some j := by
      cases ha : (scanSlots store p 0 none).2 with
      | none => exact absurd ⟨hfound, ha⟩ hroom
      | some j => exact ⟨j, rfl⟩
    have hstore : (process_request rput store).2 =
        listModify (fun _ => (⟨p, padContent b, true, b.length⟩ : DynRes)) j store := by
      rw [hb, hfound, hj]
      simp only [htoNat, hbody, hptake]
    obtain ⟨-, hjlt, hjfree, hjbefore⟩ := scanSlots_avail store p 0 j hj
    rw [Nat.sub_zero] at hjlt hjfree hjbefore
    have hne : ∀ x < j, (store.getD x emptySlot).path ≠ p := by
      intro x hx
      exact scanSlots_none store p 0 none hfound _
        (getD_mem_of_lt store x (by omega)) (hjbefore x hx)
    have hscan' := scanSlots_after_create ⟨p, padContent b, true, b.length⟩
      rfl store p j 0 none rfl hjlt hjbefore hne
    rw [Nat.zero_add] at hscan'
    rw [hstore, get_branch rget _ mg p vg hparse2 hget hdyn hcnt2 hval2, hscan']
    dsimp only
    rw [getD_listModify_eq _ store j hjlt]
    refine ⟨rfl, rfl, ?_⟩
    show (padContent b).take b.length = b
    exact padContent_take b

/-- C6 witness: PUT "hi" to `/dynamic/x` on an empty one-slot store, then
GET `/dynamic/x` returns 200 with body "hi". -/
theorem c6_witness :
    (process_request (strBytes "GET /dynamic/x HTTP/1.1\r\n\r\n")
      (process_request (strBytes "PUT /dynamic/x HTTP/1.1\r\nContent-Length: 2\r\n\r\nhi")
        [emptySlot]).2).1.status = 200 ∧
    (process_request (strBytes "GET /dynamic/x HTTP/1.1\r\n\r\n")
      (process_request (strBytes "PUT /dynamic/x HTTP/1.1\r\nContent-Length: 2\r\n\r\nhi")
        [emptySlot]).2).1.contentLength = (strBytes "hi").length ∧
    (process_request (strBytes "GET /dynamic/x HTTP/1.1\r\n\r\n")
      (process_request (strBytes "PUT /dynamic/x HTTP/1.1\r\nContent-Length: 2\r\n\r\nhi")
        [emptySlot]).2).1.body = strBytes "hi" :=
  c6_put_then_get [emptySlot]
    (strBytes "PUT /dynamic/x HTTP/1.1\r\nContent-Length: 2\r\n\r\nhi")
    (strBytes "GET /dynamic/x HTTP/1.1\r\n\r\n")
    (strBytes "PUT") (strBytes "/dynamic/x") (strBytes "HTTP/1.1")
    (strBytes "GET") (strBytes "HTTP/1.1") 42 (strBytes "hi")
    (by decide) (by decide) (by decide) (by decide) (by decide) (by decide)
    (by decide) (by decide) (by decide) (by decide) (by decide) (by decide)
    (by decide) (by decide)

/-! ## Claim C7 -/

theorem uniqueStore_listModify {f : DynRes → DynRes} {s : List DynRes}
    (hpath : ∀ r, (f r).path = r.path)
    (huse : ∀ r, (f r).in_use = true → r.in_use = true)
    (h : UniqueStore s) (n : Nat) : UniqueStore (listModify f n s) := by
  intro j hj i hij hui huj
  rw [listModify_length] at hj
  have hil : i < s.length := by omega
  by_cases hin : i = n
  · subst hin
    rw [getD_listModify_eq f s i hil] at hui ⊢
    rw [getD_listModify_ne f s i j (by omega)] at huj ⊢
    rw [hpath]
    exact h j hj i hij (huse _ hui) huj
  · rw [getD_listModify_ne f s n i hin] at hui ⊢
    by_cases hjn : j = n
    · subst hjn
      rw [getD_listModify_eq f s j (by omega)] at huj ⊢
      rw [hpath]
      exact h j hj i hij hui (huse _ huj)
    · rw [getD_listModify_ne f s n j hjn] at huj ⊢
      exact h j hj i hij hui huj

theorem uniqueStore_create {s : List DynRes} {q : List Nat} {newR : DynRes} {n : Nat}
    (h : UniqueStore s)
    (hnone : ∀ x, x < s.length → (s.getD x emptySlot).in_use = true →
      (s.getD x emptySlot).path ≠ q)
    (hpath : newR.path = q) :
    UniqueStore (listModify (fun _ => newR) n s) := by
  intro j hj i hij hui huj
  rw [listModify_length] at hj
  have hil : i < s.length := by omega
  by_cases hin : i = n
  · subst hin
    rw [getD_listModify_eq _ s i hil] at hui ⊢
    rw [getD_listModify_ne _ s i j (by omega)] at huj ⊢
    rw [hpath]
    exact fun heq => hnone j hj huj heq.symm
  · rw [getD_listModify_ne _ s n i hin] at hui ⊢
    by_cases hjn : j = n
    · subst hjn
      rw [getD_listModify_eq _ s j (by omega)] at huj ⊢
      rw [hpath]
      exact hnone i hil hui
    · rw [getD_listModify_ne _ s n j hjn] at huj ⊢
      exact h j hj i hij hui huj

/-- C7: in every store satisfying the uniqueness invariant (at most one
in-use slot per path), processing any request preserves the invariant:
Lookup and failed requests leave the store unchanged, Update rewrites only
content, Delete clears `in_use`, and Create inserts a path that the
preceding scan proved absent from every in-use slot. -/
theorem c7_unique_path_invariant (request : List Nat) (store : List DynRes)
    (h : UniqueStore store) : UniqueStore (process_request request store).2 := by
  cases hp : sscanf3 (cString request) with
  | none => simpa [process_request, hp] using h
  | some t =>
    obtain ⟨m, pv⟩ := t
    obtain ⟨p, v⟩ := pv
    have hple : p.length ≤ 255 := (sscanf3_shape hp).2.1
    have hptake : p.take 255 = p := List.take_of_length_le hple
    simp only [process_request, hp]
    by_cases h1 : 40 < count_headers request
    · rw [if_pos h1]; exact h
    · rw [if_neg h1]
      by_cases h2 : validate_headers request = false
      · rw [if_pos h2]; exact h
      · rw [if_neg h2]
        by_cases h3 : strcaseEq m (strBytes "HEAD") = true
        · rw [if_pos h3]; exact h
        · rw [if_neg h3]
          by_cases h4 : listPrefix (strBytes "/static/") p = true
          · rw [if_pos h4]
            by_cases h5 : strcaseEq m (strBytes "GET") = false
            · rw [if_pos h5]; exact h
            · rw [if_neg h5]
              cases hsl : staticLookup p with
              | some cn =>
                obtain ⟨c, n⟩ := cn
                simp only [hsl]
                exact h
              | none => simp only [hsl]; exact h
          · rw [if_neg h4]
            by_cases h6 : listPrefix (strBytes "/dynamic/") p = true
            · rw [if_pos h6]
              by_cases h7 : strcaseEq m (strBytes "PUT") = true
              · rw [if_pos h7]
                cases hhe : strstr (cString request) crlf2B with
                | none => simp only [hhe]; exact h
                | some he =>
                  simp only [hhe]
                  by_cases h8 : get_content_length request < 0 ∨
                      8192 ≤ get_content_length request
                  · rw [if_pos h8]; exact h
                  · rw [if_neg h8]
                    cases hfound : (scanSlots store p 0 none).1 with
                    | some i =>
                      simp only [hfound]
                      refine uniqueStore_listModify ?_ ?_ h i
                      · intro r; rfl
                      · intro r hr; exact hr
                    | none =>
                      simp only [hfound]
                      cases hav : (scanSlots store p 0 none).2 with
                      | none => simp only [hav]; exact h
                      | some j =>
                        simp only [hav, hptake]
                        refine uniqueStore_create h ?_ rfl
                        intro x hx hxu
                        exact scanSlots_none store p 0 none hfound _
                          (getD_mem_of_lt store x hx) hxu
              · rw [if_neg h7]
                by_cases h9 : strcaseEq m (strBytes "GET") = true
                · rw [if_pos h9]
                  cases hfound : (scanSlots store p 0 none).1 with
                  | some i => simp only [hfound]; exact h
                  | none => simp only [hfound]; exact h
                · rw [if_neg h9]
                  by_cases h10 : strcaseEq m (strBytes "DELETE") = true
                  · rw [if_pos h10]
                    cases hfound : (scanSlots store p 0 none).1 with
                    | some i =>
                      simp only [hfound]
                      refine uniqueStore_listModify ?_ ?_ h i
                      · intro r; rfl
                      · intro r hr; exact Bool.noConfusion hr
                    | none => simp only [hfound]; exact h
                  · rw [if_neg h10]; exact h
            · rw [if_neg h6]; exact h

/-- C7 witness: the invariant holds for a concrete store and is preserved
by a concrete PUT that creates a second resource. -/
theorem c7_witness :
    UniqueStore (process_request
      (strBytes "PUT /dynamic/b HTTP/1.1\r\nContent-Length: 0\r\n\r\n")
      [⟨strBytes "/dynamic/a", [], true, 0⟩, emptySlot]).2 :=
  c7_unique_path_invariant _ _ (by decide)

/-! ## Claim C2, amended part: chunk independence for single requests -/

theorem cString_eq_self : ∀ {l : List Nat}, (∀ c ∈ l, c ≠ 0) → cString l = l := by
  intro l
  induction l with
  | nil => intro _; rfl
  | cons a t ih =>
    intro h
    have ha : a ≠ 0 := h a (by simp)
    have ht := ih (fun c hc => h c (List.mem_cons_of_mem _ hc))
    unfold cString at ht ⊢
    rw [List.takeWhile_cons, if_pos (decide_eq_true ha), ht]

theorem listPrefix_take_iff (n x : List Nat) (m : Nat) :
    listPrefix n (x.take m) = true ↔ (listPrefix n x = true ∧ n.length ≤ m) := by
  constructor
  · intro h
    rcases (listPrefix_iff_append _ _).1 h with ⟨t, ht⟩
    have h1 : n.length ≤ (x.take m).length := by rw [ht]; simp
    have h2 : (x.take m).length ≤ m := by
      rw [List.length_take]; exact inf_le_left
    refine ⟨(listPrefix_iff_append _ _).2 ⟨t ++ x.drop m, ?_⟩, le_trans h1 h2⟩
    rw [← List.append_assoc, ← ht, List.take_append_drop]
  · rintro ⟨h, hlen⟩
    rcases (listPrefix_iff_append _ _).1 h with ⟨t, rfl⟩
    apply (listPrefix_iff_append _ _).2
    refine ⟨t.take (m - n.length), ?_⟩
    rw [List.take_append_eq_append_take, List.take_of_length_le hlen]

theorem strstr_eq_some_of {x n : List Nat} {i : Nat}
    (hocc : listPrefix n (x.drop i) = true)
    (hmin : ∀ j < i, listPrefix n (x.drop j) = false) :
    strstr x n = some i := by
  obtain ⟨j, hj⟩ := strstr_isSome hocc
  obtain ⟨hpre, hminj⟩ := strstr_some hj
  rcases Nat.lt_trichotomy j i with hlt | heq | hgt
  · rw [hmin j hlt] at hpre; cases hpre
  · rw [heq] at hj; exact hj
  · rw [hminj i hgt] at hocc; cases hocc

theorem strstr_take_eq {r : List Nat} {i k : Nat}
    (hterm : strstr r crlf2B = some i) (hik : i + 4 ≤ k) :
    strstr (r.take k) crlf2B = some i := by
  obtain ⟨hpre, hmin⟩ := strstr_some hterm
  apply strstr_eq_some_of
  · rw [List.drop_take]
    refine (listPrefix_take_iff _ _ _).2 ⟨hpre, ?_⟩
    have h4 : crlf2B.length = 4 := rfl
    omega
  · intro j hj
    refine Bool.eq_false_iff.2 fun hq => ?_
    rw [List.drop_take] at hq
    have := ((listPrefix_take_iff _ _ _).1 hq).1
    rw [hmin j hj] at this
    cases this

/-- If the buffer holds a proper prefix of the single request `r`, no frame
is yielded: either the terminator is not yet buffered, or it is and the
(stable) Content-Length demands more bytes than the prefix holds. -/
theorem frameStep_take_none (r : List Nat) (i : Nat)
    (hnz : ∀ c ∈ r, c ≠ 0)
    (hterm : strstr r crlf2B = some i)
    (hlen : r.length = i + 4 + clampCL (get_content_length r))
    (hstable : ∀ k, k ≤ r.length → i + 4 ≤ k →
      get_content_length (r.take k) = get_content_length r)
    {k : Nat} (hk : k < r.length) :
    frameStep (r.take k) = none := by
  have hnzk : ∀ c ∈ r.take k, c ≠ 0 := fun c hc => hnz c (List.mem_of_mem_take hc)
  have hcs : cString (r.take k) = r.take k := cString_eq_self hnzk
  cases hs : strstr (r.take k) crlf2B with
  | none => simp only [frameStep, hcs, hs]
  | some i2 =>
    obtain ⟨hpre, -⟩ := strstr_some hs
    rw [List.drop_take] at hpre
    obtain ⟨hocc, hl4⟩ := (listPrefix_take_iff _ _ _).1 hpre
    obtain ⟨-, hmin⟩ := strstr_some hterm
    have hge : i ≤ i2 := by
      by_contra hlt
      push_neg at hlt
      rw [hmin i2 hlt] at hocc
      cases hocc
    have h4len : crlf2B.length = 4 := rfl
    have hik : i + 4 ≤ k := by omega
    have heq := strstr_take_eq hterm hik
    rw [hs] at heq
    injection heq with heq
    subst heq
    have hcl := hstable k (by omega) hik
    have hlenk : (r.take k).length = k := by
      rw [List.length_take]
      omega
    simp only [frameStep, hcs, hs]
    rw [hcl, hlenk, if_pos (by omega)]

theorem frameStep_full (r : List Nat) (i : Nat)
    (hnz : ∀ c ∈ r, c ≠ 0)
    (hterm : strstr r crlf2B = some i)
    (hlen : r.length = i + 4 + clampCL (get_content_length r)) :
    frameStep r = some (r, []) := by
  have hcs : cString r = r := cString_eq_self hnz
  simp only [frameStep, hcs, hterm]
  rw [← hlen, if_neg (lt_irrefl _), if_neg (lt_irrefl _), List.take_length,
    List.drop_length]

theorem frameStep_nil : frameStep [] = none := rfl

theorem frameDrainF_none {buf : List Nat} (h : frameStep buf = none) :
    ∀ fuel, frameDrainF fuel buf = ([], buf)
  | 0 => rfl
  | fuel + 1 => by simp [frameDrainF, h]

theorem frameDrain_of_none {buf : List Nat} (h : frameStep buf = none) :
    frameDrain buf = ([], buf) :=
  frameDrainF_none h _

theorem frameDrainF_nil : ∀ fuel, frameDrainF fuel [] = ([], [])
  | 0 => rfl
  | fuel + 1 => by simp [frameDrainF, frameStep_nil]

theorem frameDrain_full (r : List Nat) (i : Nat)
    (hnz : ∀ c ∈ r, c ≠ 0)
    (hterm : strstr r crlf2B = some i)
    (hlen : r.length = i + 4 + clampCL (get_content_length r)) :
    frameDrain r = ([r], []) := by
  have hstep := frameStep_full r i hnz hterm hlen
  have hb := strstr_some_le (show crlf2B ≠ [] by decide) hterm
  have h4len : crlf2B.length = 4 := rfl
  have hpos : 0 < r.length := by omega
  unfold frameDrain
  obtain ⟨L, hL⟩ : ∃ L, r.length = L + 1 := ⟨r.length - 1, by omega⟩
  rw [hL]
  simp [frameDrainF, hstep, frameDrainF_nil]

theorem feedAux_all_empty : ∀ (cs : List (List Nat)), cs.flatten = [] →
    feedAux cs [] = ([], []) := by
  intro cs
  induction cs with
  | nil => intro _; rfl
  | cons c cs ih =>
    intro h
    rw [List.flatten_cons, List.append_eq_nil] at h
    obtain ⟨hc, hcs⟩ := h
    subst hc
    simp only [feedAux, List.nil_append]
    rw [frameDrain_of_none frameStep_nil, ih hcs]
    rfl

theorem feedAux_completes (r : List Nat) (i : Nat)
    (hnz : ∀ c ∈ r, c ≠ 0)
    (hterm : strstr r crlf2B = some i)
    (hlen : r.length = i + 4 + clampCL (get_content_length r))
    (hstable : ∀ k, k ≤ r.length → i + 4 ≤ k →
      get_content_length (r.take k) = get_content_length r) :
    ∀ (cs : List (List Nat)) (k : Nat), k < r.length →
      r.take k ++ cs.flatten = r → feedAux cs (r.take k) = ([r], []) := by
  intro cs
  induction cs with
  | nil =>
    intro k hk hjoin
    exfalso
    rw [List.flatten_nil, List.append_nil] at hjoin
    have := congrArg List.length hjoin
    rw [List.length_take] at this
    omega
  | cons c cs ih =>
    intro k hk hjoin
    rw [List.flatten_cons] at hjoin
    have hpre : (r.take k ++ c) ++ cs.flatten = r := by
      rw [List.append_assoc]; exact hjoin
    have hlk : (r.take k).length = k := by rw [List.length_take]; omega
    have htake : r.take k ++ c = r.take (k + c.length) := by
      have h1 := List.take_left (r.take k ++ c) cs.flatten
      rw [hpre] at h1
      rw [← h1]
      congr 1
      rw [List.length_append, hlk]
    have hk2 : k + c.length ≤ r.length := by
      have := congrArg List.length hpre
      rw [List.length_append, List.length_append, hlk] at this
      omega
    rcases Nat.lt_or_ge (k + c.length) r.length with hfull | hfull
    · simp only [feedAux]
      rw [htake,
        frameDrain_of_none (frameStep_take_none r i hnz hterm hlen hstable hfull)]
      have hrec := ih (k + c.length) hfull (by rw [← htake, List.append_assoc]; exact hjoin)
      simp only
      rw [hrec]
      rfl
    · have hfull2 : k + c.length = r.length := by omega
      rw [htake, hfull2, List.take_length] at hpre
      have hflat : cs.flatten = [] := by
        have := congrArg List.length hpre
        rw [List.length_append] at this
        exact List.eq_nil_of_length_eq_zero (by omega)
      simp only [feedAux]
      rw [htake, hfull2, List.take_length, frameDrain_full r i hnz hterm hlen]
      simp only
      rw [feedAux_all_empty cs hflat]
      rfl

/-- C2 amended: for a stream that is one complete request `r` — no NUL
bytes, terminator first at `i`, total framed length equal to `r`'s length,
the parsed Content-Length already determined by every buffer prefix
containing the terminator, and `r` small enough for the 8192-byte
connection buffer — every chunking of `r` produces exactly the frame `r`,
the same as delivering it in one chunk. (For pipelined streams the code is
not chunk-independent; see the counterexample.) -/
theorem c2_single_request_chunk_independence (r : List Nat)
    (chunks : List (List Nat)) (i : Nat)
    (hjoin : chunks.flatten = r)
    (hnz : ∀ c ∈ r, c ≠ 0)
    (hterm : strstr r crlf2B = some i)
    (hlen : r.length = i + 4 + clampCL (get_content_length r))
    (hstable : ∀ k, k ≤ r.length → i + 4 ≤ k →
      get_content_length (r.take k) = get_content_length r)
    (hcap : r.length ≤ 8191) :
    (feedChunks chunks).1 = (feedChunks [r]).1 ∧ (feedChunks chunks).1 = [r] := by
  have hb := strstr_some_le (show crlf2B ≠ [] by decide) hterm
  have h4len : crlf2B.length = 4 := rfl
  have hpos : 0 < r.length := by omega
  have h1 : feedChunks chunks = ([r], []) := by
    unfold feedChunks
    have h0 : ([] : List Nat) = r.take 0 := rfl
    rw [h0]
    exact feedAux_completes r i hnz hterm hlen hstable chunks 0 hpos (by simpa using hjoin)
  have h2 : feedChunks [r] = ([r], []) := by
    unfold feedChunks
    have h0 : ([] : List Nat) = r.take 0 := rfl
    rw [h0]
    exact feedAux_completes r i hnz hterm hlen hstable [r] 0 hpos (by simp)
  rw [h1, h2]
  exact ⟨rfl, rfl⟩

/-- C2 witness: one GET request split in the middle of its request line
frames identically to the unsplit delivery. -/
theorem c2_witness :
    (feedChunks [strBytes "GET /static/foo HTT", strBytes "P/1.1\r\n\r\n"]).1 =
      (feedChunks [strBytes "GET /static/foo HTT" ++ strBytes "P/1.1\r\n\r\n"]).1 ∧
    (feedChunks [strBytes "GET /static/foo HTT", strBytes "P/1.1\r\n\r\n"]).1 =
      [strBytes "GET /static/foo HTT" ++ strBytes "P/1.1\r\n\r\n"] :=
  c2_single_request_chunk_independence
    (strBytes "GET /static/foo HTT" ++ strBytes "P/1.1\r\n\r\n")
    [strBytes "GET /static/foo HTT", strBytes "P/1.1\r\n\r\n"] 24
    (by decide) (by decide) (by decide) (by decide) (by decide) (by decide)

/-! ## Claim C10: case-fold invariance machinery -/

theorem lowerB_eq_iff_of_nonletter {a b c : Nat}
    (ha1 : ¬(65 ≤ a ∧ a ≤ 90)) (ha2 : ¬(97 ≤ a ∧ a ≤ 122))
    (hbc : lowerB b = lowerB c) : (a = b) = (a = c) := by
  unfold lowerB at hbc
  apply propext
  split_ifs at hbc <;> constructor <;> intro h <;> omega

theorem lowerB_inj_of_nonletter {b c : Nat}
    (hb1 : ¬(65 ≤ b ∧ b ≤ 90)) (hb2 : ¬(97 ≤ b ∧ b ≤ 122))
    (hbc : lowerB b = lowerB c) : b = c := by
  unfold lowerB at hbc
  split_ifs at hbc <;> omega

theorem isSpaceB_lower {b c : Nat} (h : lowerB b = lowerB c) :
    isSpaceB b = isSpaceB c := by
  rw [Bool.eq_iff_iff]
  simp only [isSpaceB, Bool.or_eq_true, decide_eq_true_eq]
  unfold lowerB at h
  split_ifs at h <;> omega

theorem isDigitB_lower {b c : Nat} (h : lowerB b = lowerB c) :
    isDigitB b = isDigitB c := by
  rw [Bool.eq_iff_iff]
  simp only [isDigitB, Bool.and_eq_true, decide_eq_true_eq]
  unfold lowerB at h
  split_ifs at h <;> omega

theorem ne_zero_lower {b c : Nat} (h : lowerB b = lowerB c) (hb : b ≠ 0) : c ≠ 0 := by
  unfold lowerB at h
  split_ifs at h <;> omega

/-- Pointwise transfer of a `lowerB`-invariant property across case-fold
equal lists. -/
theorem forall_mem_lower {P : Nat → Prop}
    (hP : ∀ b c, lowerB b = lowerB c → P b → P c) :
    ∀ {x y : List Nat}, x.map lowerB = y.map lowerB →
      (∀ c ∈ x, P c) → ∀ c ∈ y, P c := by
  intro x
  induction x with
  | nil =>
    intro y h _ c hc
    cases y with
    | nil => cases hc
    | cons d t => cases h
  | cons a t ih =>
    intro y h hx c hc
    cases y with
    | nil => cases h
    | cons d u =>
      simp only [List.map_cons, List.cons.injEq] at h
      obtain ⟨h1, h2⟩ := h
      rcases List.mem_cons.1 hc with rfl | hc
      · exact hP a c h1 (hx a (by simp))
      · exact ih h2 (fun e he => hx e (List.mem_cons_of_mem _ he)) c hc

theorem map_lower_length {x y : List Nat} (h : x.map lowerB = y.map lowerB) :
    x.length = y.length := by
  have := congrArg List.length h
  simpa using this

theorem map_lower_drop {x y : List Nat} (h : x.map lowerB = y.map lowerB) (n : Nat) :
    (x.drop n).map lowerB = (y.drop n).map lowerB := by
  rw [List.map_drop, List.map_drop, h]

theorem map_lower_take {x y : List Nat} (h : x.map lowerB = y.map lowerB) (n : Nat) :
    (x.take n).map lowerB = (y.take n).map lowerB := by
  rw [List.map_take, List.map_take, h]

/-- `listPrefix` with a needle containing no letters only depends on the
case-folded haystack. -/
theorem listPrefix_lower_invar :
    ∀ {n : List Nat}, (∀ a ∈ n, ¬(65 ≤ a ∧ a ≤ 90) ∧ ¬(97 ≤ a ∧ a ≤ 122)) →
    ∀ {x y : List Nat}, x.map lowerB = y.map lowerB →
      listPrefix n x = listPrefix n y := by
  intro n
  induction n with
  | nil => intro _ x y _; rfl
  | cons a t ih =>
    intro hn x y hxy
    cases x with
    | nil =>
      cases y with
      | nil => rfl
      | cons c y2 => cases hxy
    | cons b x2 =>
      cases y with
      | nil => cases hxy
      | cons c y2 =>
        simp only [List.map_cons, List.cons.injEq] at hxy
        obtain ⟨h1, h2⟩ := hxy
        show (decide (a = b) && listPrefix t x2) = (decide (a = c) && listPrefix t y2)
        have hd : decide (a = b) = decide (a = c) :=
          decide_eq_decide.mpr
            (Iff.of_eq (lowerB_eq_iff_of_nonletter (hn a (by simp)).1 (hn a (by simp)).2 h1))
        rw [hd, ih (fun e he => hn e (List.mem_cons_of_mem _ he)) h2]

theorem strstrAux_lower_invar {n : List Nat}
    (hn : ∀ a ∈ n, ¬(65 ≤ a ∧ a ≤ 90) ∧ ¬(97 ≤ a ∧ a ≤ 122)) :
    ∀ {x y : List Nat} (i : Nat), x.map lowerB = y.map lowerB →
      strstrAux n x i = strstrAux n y i := by
  intro x
  induction x with
  | nil =>
    intro y i h
    cases y with
    | nil => rfl
    | cons c y2 => cases h
  | cons b x2 ih =>
    intro y i h
    cases y with
    | nil => cases h
    | cons c y2 =>
      have hpre := listPrefix_lower_invar hn h
      rw [strstrAux, strstrAux, hpre]
      by_cases hp : listPrefix n (c :: y2) = true
      · rw [hp]; simp
      · rw [Bool.not_eq_true] at hp
        rw [hp]
        simp only [Bool.false_eq_true, if_false]
        simp only [List.map_cons, List.cons.injEq] at h
        exact ih (i + 1) h.2

theorem strstr_lower_invar {n x y : List Nat}
    (hn : ∀ a ∈ n, ¬(65 ≤ a ∧ a ≤ 90) ∧ ¬(97 ≤ a ∧ a ≤ 122))
    (h : x.map lowerB = y.map lowerB) :
    strstr x n = strstr y n :=
  strstrAux_lower_invar hn 0 h

theorem crlfB_nonletter : ∀ a ∈ crlfB, ¬(65 ≤ a ∧ a ≤ 90) ∧ ¬(97 ≤ a ∧ a ≤ 122) := by
  decide

theorem crlf2B_nonletter : ∀ a ∈ crlf2B, ¬(65 ≤ a ∧ a ≤ 90) ∧ ¬(97 ≤ a ∧ a ≤ 122) := by
  decide

theorem cString_lower_invar :
    ∀ {x y : List Nat}, x.map lowerB = y.map lowerB →
      (cString x).map lowerB = (cString y).map lowerB := by
  intro x
  induction x with
  | nil =>
    intro y h
    cases y with
    | nil => rfl
    | cons c y2 => cases h
  | cons b x2 ih =>
    intro y h
    cases y with
    | nil => cases h
    | cons c y2 =>
      simp only [List.map_cons, List.cons.injEq] at h
      obtain ⟨h1, h2⟩ := h
      show ((b :: x2).takeWhile (fun e => decide (e ≠ 0))).map lowerB =
        ((c :: y2).takeWhile (fun e => decide (e ≠ 0))).map lowerB
      rw [List.takeWhile_cons, List.takeWhile_cons]
      by_cases hb : b = 0
      · have hc : c = 0 := by
          subst hb
          by_contra hc0
          have := ne_zero_lower h1.symm hc0
          exact this rfl
        subst hb; subst hc
        simp
      · have hc : c ≠ 0 := ne_zero_lower h1 hb
        rw [if_pos (decide_eq_true hb), if_pos (decide_eq_true hc)]
        simp only [List.map_cons, List.cons.injEq]
        exact ⟨h1, ih h2⟩

theorem eq_const_of_lower {k b c : Nat}
    (hk1 : ¬(65 ≤ k ∧ k ≤ 90)) (hk2 : ¬(97 ≤ k ∧ k ≤ 122))
    (h : lowerB b = lowerB c) : (b = k) = (c = k) := by
  unfold lowerB at h
  apply propext
  split_ifs at h <;> constructor <;> intro <;> omega

theorem dropWhile_isSpaceB_lower :
    ∀ {x y : List Nat}, x.map lowerB = y.map lowerB →
      (x.dropWhile isSpaceB).map lowerB = (y.dropWhile isSpaceB).map lowerB := by
  intro x
  induction x with
  | nil =>
    intro y h
    cases y with
    | nil => rfl
    | cons c u => cases h
  | cons b t ih =>
    intro y h
    cases y with
    | nil => cases h
    | cons c u =>
      simp only [List.map_cons, List.cons.injEq] at h
      obtain ⟨h1, h2⟩ := h
      rw [List.dropWhile_cons, List.dropWhile_cons, isSpaceB_lower h1]
      by_cases hc : isSpaceB c = true
      · rw [if_pos hc, if_pos hc]
        exact ih h2
      · rw [Bool.not_eq_true] at hc
        rw [hc]
        simp only [Bool.false_eq_true, if_false, List.map_cons, List.cons.injEq]
        exact ⟨h1, h2⟩

theorem takeWhile_isDigitB_eq_of_lower :
    ∀ {x y : List Nat}, x.map lowerB = y.map lowerB →
      x.takeWhile isDigitB = y.takeWhile isDigitB := by
  intro x
  induction x with
  | nil =>
    intro y h
    cases y with
    | nil => rfl
    | cons c u => cases h
  | cons b t ih =>
    intro y h
    cases y with
    | nil => cases h
    | cons c u =>
      simp only [List.map_cons, List.cons.injEq] at h
      obtain ⟨h1, h2⟩ := h
      rw [List.takeWhile_cons, List.takeWhile_cons, isDigitB_lower h1]
      by_cases hc : isDigitB c = true
      · rw [if_pos hc, if_pos hc]
        have hbd : isDigitB b = true := by rw [isDigitB_lower h1]; exact hc
        have hb2 : 48 ≤ b ∧ b ≤ 57 := by
          simpa [isDigitB, Bool.and_eq_true, decide_eq_true_eq] using hbd
        have hbc : b = c := lowerB_inj_of_nonletter (by omega) (by omega) h1
        rw [hbc, ih h2]
      · rw [Bool.not_eq_true] at hc
        rw [hc]
        simp

theorem parseSsize_lower_invar :
    ∀ {x y : List Nat}, x.map lowerB = y.map lowerB →
      parseSsize x = parseSsize y := by
  intro x y h
  have hdw := dropWhile_isSpaceB_lower h
  unfold parseSsize
  cases hx : x.dropWhile isSpaceB with
  | nil =>
    cases hy : y.dropWhile isSpaceB with
    | nil => rfl
    | cons c u => rw [hx, hy] at hdw; cases hdw
  | cons b t =>
    cases hy : y.dropWhile isSpaceB with
    | nil => rw [hx, hy] at hdw; cases hdw
    | cons c u =>
      rw [hx, hy] at hdw
      simp only [List.map_cons, List.cons.injEq] at hdw
      obtain ⟨h1, h2⟩ := hdw
      have e45 : (b = 45) = (c = 45) := eq_const_of_lower (by omega) (by omega) h1
      have e43 : (b = 43) = (c = 43) := eq_const_of_lower (by omega) (by omega) h1
      simp only [List.headD_cons, List.tail_cons, e45, e43]
      by_cases hsgn : c = 45 ∨ c = 43
      · rw [if_pos hsgn, if_pos hsgn, takeWhile_isDigitB_eq_of_lower h2]
      · rw [if_neg hsgn, if_neg hsgn,
          takeWhile_isDigitB_eq_of_lower
            (show (b :: t).map lowerB = (c :: u).map lowerB by
              simp only [List.map_cons, List.cons.injEq]; exact ⟨h1, h2⟩)]

theorem get_content_length_lower_invar {x y : List Nat}
    (h : x.map lowerB = y.map lowerB) :
    get_content_length x = get_content_length y := by
  have hcs := cString_lower_invar h
  simp only [get_content_length, strcasestr]
  rw [hcs]
  cases hm : strstr ((cString y).map lowerB) ((strBytes "Content-Length:").map lowerB) with
  | none => rfl
  | some i =>
    dsimp only
    rw [parseSsize_lower_invar (map_lower_drop hcs (i + 15))]

theorem countCrlfF_lower_invar :
    ∀ (fuel : Nat) {s s' : List Nat} (dist : Nat), s.map lowerB = s'.map lowerB →
      countCrlfF fuel s dist = countCrlfF fuel s' dist := by
  intro fuel
  induction fuel with
  | zero => intros; rfl
  | succ fuel ih =>
    intro s s' dist h
    simp only [countCrlfF]
    by_cases hd : dist = 0
    · rw [if_pos hd, if_pos hd]
    · rw [if_neg hd, if_neg hd, strstr_lower_invar crlfB_nonletter h]
      cases hj : strstr s' crlfB with
      | none => rfl
      | some j =>
        dsimp only
        rw [ih _ (map_lower_drop h _)]

theorem count_headers_lower_invar {x y : List Nat}
    (h : x.map lowerB = y.map lowerB) :
    count_headers x = count_headers y := by
  have hcs := cString_lower_invar h
  simp only [count_headers]
  rw [strstr_lower_invar crlf2B_nonletter hcs]
  cases he : strstr (cString y) crlf2B with
  | none => rfl
  | some e =>
    dsimp only
    unfold countCrlf
    rw [countCrlfF_lower_invar e e hcs]

theorem validLoopF_lower_invar :
    ∀ (fuel : Nat) {s s' : List Nat} (dist : Nat), s.map lowerB = s'.map lowerB →
      validLoopF fuel s dist = validLoopF fuel s' dist := by
  intro fuel
  induction fuel with
  | zero => intros; rfl
  | succ fuel ih =>
    intro s s' dist h
    simp only [validLoopF]
    by_cases hd : dist = 0
    · rw [if_pos hd, if_pos hd]
    · rw [if_neg hd, if_neg hd, strstr_lower_invar crlfB_nonletter h]
      cases hj : strstr s' crlfB with
      | none => rfl
      | some j =>
        dsimp only
        by_cases hjl : 256 < j
        · rw [if_pos hjl, if_pos hjl]
        · rw [if_neg hjl, if_neg hjl, ih _ (map_lower_drop h _)]

theorem validate_headers_lower_invar {x y : List Nat}
    (h : x.map lowerB = y.map lowerB) :
    validate_headers x = validate_headers y := by
  have hcs := cString_lower_invar h
  simp only [validate_headers]
  rw [strstr_lower_invar crlfB_nonletter hcs, strstr_lower_invar crlf2B_nonletter hcs]
  cases h0 : strstr (cString y) crlfB with
  | none => rfl
  | some a =>
    cases he : strstr (cString y) crlf2B with
    | none => rfl
    | some e =>
      dsimp only
      unfold validLoop
      rw [validLoopF_lower_invar _ _ (map_lower_drop hcs _)]

theorem takeWhile_append_all {p : Nat → Bool} :
    ∀ {m l : List Nat}, (∀ c ∈ m, p c = true) →
      (m ++ l).takeWhile p = m ++ l.takeWhile p := by
  intro m
  induction m with
  | nil => intro l _; rfl
  | cons b t ih =>
    intro l hm
    rw [List.cons_append, List.takeWhile_cons, if_pos (hm b (by simp)),
      List.cons_append, ih (fun c hc => hm c (List.mem_cons_of_mem _ hc))]

theorem drop_append_ge {m l : List Nat} {n : Nat} (h : m.length ≤ n) :
    (m ++ l).drop n = l.drop (n - m.length) := by
  rw [List.drop_append_eq_append_drop, List.drop_eq_nil_of_le h, List.nil_append]

/-- `%15s` on a buffer beginning with a nonempty run of non-whitespace
bytes `m`: the token is the first 15 bytes of `m` extended by the adjacent
non-whitespace run, and scanning resumes after the token. -/
theorem scanToken_token_split {m : List Nat} (rest1 : List Nat)
    (hm : ∀ c ∈ m, isSpaceB c = false) (hne : m ≠ []) :
    scanToken 15 (m ++ rest1) =
      some ((m ++ rest1.takeWhile (fun c => !isSpaceB c)).take 15,
        (m ++ rest1).drop
          ((m ++ rest1.takeWhile (fun c => !isSpaceB c)).take 15).length) := by
  obtain ⟨b, t, rfl⟩ := List.exists_cons_of_ne_nil hne
  have hb : isSpaceB b = false := hm b (by simp)
  unfold scanToken
  rw [List.cons_append, List.dropWhile_cons, hb]
  simp only [Bool.false_eq_true, if_false]
  have htw : (b :: (t ++ rest1)).takeWhile (fun c => !isSpaceB c) =
      (b :: t) ++ rest1.takeWhile (fun c => !isSpaceB c) := by
    rw [← List.cons_append]
    exact takeWhile_append_all (fun c hc => by rw [hm c hc]; rfl)
  rw [htw, ← List.cons_append]

theorem scanToken_split_pair {m m' : List Nat} (rest1 : List Nat)
    (hcase : m.map lowerB = m'.map lowerB)
    (hm : ∀ c ∈ m, isSpaceB c = false) (hm' : ∀ c ∈ m', isSpaceB c = false)
    (hne : m ≠ []) (hne' : m' ≠ []) (hlen : m.length ≤ 15) :
    ∃ tok tok' rest2,
      scanToken 15 (m ++ rest1) = some (tok, rest2) ∧
      scanToken 15 (m' ++ rest1) = some (tok', rest2) ∧
      tok.map lowerB = tok'.map lowerB := by
  have hlm : m'.length = m.length := (map_lower_length hcase).symm
  have h1 := scanToken_token_split rest1 hm hne
  have h2 := scanToken_token_split rest1 hm' hne'
  set w := rest1.takeWhile (fun c => !isSpaceB c) with hw
  have htok : ((m ++ w).take 15).map lowerB = ((m' ++ w).take 15).map lowerB := by
    rw [List.map_take, List.map_take, List.map_append, List.map_append, hcase]
  have hlt : ((m ++ w).take 15).length = ((m' ++ w).take 15).length := by
    have := congrArg List.length htok
    simpa using this
  have hgem : m.length ≤ ((m ++ w).take 15).length := by
    rw [List.length_take, List.length_append]
    omega
  have hgem' : m'.length ≤ ((m' ++ w).take 15).length := by
    rw [List.length_take, List.length_append]
    omega
  have hrest : (m ++ rest1).drop ((m ++ w).take 15).length =
      (m' ++ rest1).drop ((m' ++ w).take 15).length := by
    rw [drop_append_ge hgem, drop_append_ge hgem', hlt, hlm]
  refine ⟨(m ++ w).take 15, (m' ++ w).take 15,
    (m ++ rest1).drop ((m ++ w).take 15).length, h1, ?_, htok⟩
  rw [h2, hrest]

theorem sscanf3_split_pair {m m' : List Nat} (rest1 : List Nat)
    (hcase : m.map lowerB = m'.map lowerB)
    (hm : ∀ c ∈ m, isSpaceB c = false) (hm' : ∀ c ∈ m', isSpaceB c = false)
    (hne : m ≠ []) (hne' : m' ≠ []) (hlen : m.length ≤ 15) :
    (sscanf3 (m ++ rest1) = none ∧ sscanf3 (m' ++ rest1) = none) ∨
    (∃ tok tok' p v, tok.map lowerB = tok'.map lowerB ∧
      sscanf3 (m ++ rest1) = some (tok, p, v) ∧
      sscanf3 (m' ++ rest1) = some (tok', p, v)) := by
  obtain ⟨tok, tok', rest2, h1, h1', htt⟩ :=
    scanToken_split_pair rest1 hcase hm hm' hne hne' hlen
  cases h2 : scanToken 255 rest2 with
  | none =>
    left
    constructor <;> simp only [sscanf3, h1, h1', h2]
  | some pr =>
    obtain ⟨p, rest3⟩ := pr
    cases h3 : scanToken 15 rest3 with
    | none =>
      left
      constructor <;> simp only [sscanf3, h1, h1', h2, h3]
    | some vr =>
      obtain ⟨v, rest4⟩ := vr
      right
      exact ⟨tok, tok', p, v, htt, by simp only [sscanf3, h1, h2, h3],
        by simp only [sscanf3, h1', h2, h3]⟩

/-- C10: methods are matched case-insensitively. Replacing the leading
method token `m` of a request by any case variant `m'` (same bytes up to
ASCII case; the token is nonempty, at most 15 bytes, free of whitespace and
NUL) produces the same response and the same store transition: every use of
the method in `process_request` goes through `strcasecmp`, and the
case-insensitive `Content-Length` lookup and header scans are unaffected by
letter case. -/
theorem c10_method_case_insensitive (m m' rest : List Nat) (store : List DynRes)
    (hcase : m.map lowerB = m'.map lowerB)
    (hm : ∀ c ∈ m, isSpaceB c = false ∧ c ≠ 0)
    (hne : m ≠ [])
    (hlen : m.length ≤ 15) :
    process_request (m' ++ rest) store = process_request (m ++ rest) store := by
  have hm' : ∀ c ∈ m', isSpaceB c = false ∧ c ≠ 0 :=
    forall_mem_lower
      (fun b c hbc hb => ⟨by rw [← isSpaceB_lower hbc]; exact hb.1, ne_zero_lower hbc hb.2⟩)
      hcase hm
  have hlm : m'.length = m.length := (map_lower_length hcase).symm
  have hne' : m' ≠ [] := by
    intro h
    subst h
    have h0 : m.length = 0 := by simpa using hlm.symm
    exact hne (List.eq_nil_of_length_eq_zero h0)
  have hraw : (m' ++ rest).map lowerB = (m ++ rest).map lowerB := by
    rw [List.map_append, List.map_append, hcase]
  have hcnt : count_headers (m' ++ rest) = count_headers (m ++ rest) :=
    count_headers_lower_invar hraw
  have hval : validate_headers (m' ++ rest) = validate_headers (m ++ rest) :=
    validate_headers_lower_invar hraw
  have hcl : get_content_length (m' ++ rest) = get_content_length (m ++ rest) :=
    get_content_length_lower_invar hraw
  have hcsm : cString (m ++ rest) = m ++ cString rest := by
    unfold cString
    exact takeWhile_append_all (fun c hc => decide_eq_true (hm c hc).2)
  have hcsm' : cString (m' ++ rest) = m' ++ cString rest := by
    unfold cString
    exact takeWhile_append_all (fun c hc => decide_eq_true (hm' c hc).2)
  have hterm : strstr (m' ++ cString rest) crlf2B = strstr (m ++ cString rest) crlf2B := by
    apply strstr_lower_invar crlf2B_nonletter
    rw [List.map_append, List.map_append, hcase]
  rcases sscanf3_split_pair (cString rest) hcase (fun c hc => (hm c hc).1)
      (fun c hc => (hm' c hc).1) hne hne' hlen with
    ⟨hn, hn'⟩ | ⟨tok, tok', p, v, htt, hs, hs'⟩
  · simp only [process_request, hcsm, hcsm', hn, hn']
  · have hH : strcaseEq tok' (strBytes "HEAD") = strcaseEq tok (strBytes "HEAD") := by
      unfold strcaseEq; rw [← htt]
    have hG : strcaseEq tok' (strBytes "GET") = strcaseEq tok (strBytes "GET") := by
      unfold strcaseEq; rw [← htt]
    have hP : strcaseEq tok' (strBytes "PUT") = strcaseEq tok (strBytes "PUT") := by
      unfold strcaseEq; rw [← htt]
    have hD : strcaseEq tok' (strBytes "DELETE") = strcaseEq tok (strBytes "DELETE") := by
      unfold strcaseEq; rw [← htt]
    simp only [process_request, hcsm, hcsm', hs, hs']
    rw [hcnt, hval, hH, hG, hP, hD, hterm, hcl]
    by_cases h1 : 40 < count_headers (m ++ rest)
    · rw [if_pos h1, if_pos h1]
    · rw [if_neg h1, if_neg h1]
      by_cases h2 : validate_headers (m ++ rest) = false
      · rw [if_pos h2, if_pos h2]
      · rw [if_neg h2, if_neg h2]
        by_cases h3 : strcaseEq tok (strBytes "HEAD") = true
        · rw [if_pos h3, if_pos h3]
        · rw [if_neg h3, if_neg h3]
          by_cases h4 : listPrefix (strBytes "/static/") p = true
          · rw [if_pos h4, if_pos h4]
          · rw [if_neg h4, if_neg h4]
            by_cases h6 : listPrefix (strBytes "/dynamic/") p = true
            · rw [if_pos h6, if_pos h6]
              by_cases h7 : strcaseEq tok (strBytes "PUT") = true
              · rw [if_pos h7, if_pos h7]
                cases hhe : strstr (m ++ cString rest) crlf2B with
                | none => rfl
                | some he =>
                  dsimp only
                  by_cases h8 : get_content_length (m ++ rest) < 0 ∨
                      8192 ≤ get_content_length (m ++ rest)
                  · rw [if_pos h8, if_pos h8]
                  · rw [if_neg h8, if_neg h8]
                    have hge : m.length ≤ he := by
                      by_contra hlt
                      push_neg at hlt
                      obtain ⟨hpre, -⟩ := strstr_some hhe
                      rw [List.drop_append_eq_append_drop] at hpre
                      obtain ⟨d, dr, hd⟩ :=
                        List.exists_cons_of_ne_nil (show m.drop he ≠ [] by
                          intro h0
                          have hl0 := congrArg List.length h0
                          rw [List.length_drop] at hl0
                          simp only [List.length_nil] at hl0
                          omega)
                      rw [hd, crlf2B_eq, List.cons_append] at hpre
                      have hd13 : 13 = d := by
                        simp only [listPrefix, Bool.and_eq_true, decide_eq_true_eq] at hpre
                        exact hpre.1
                      have hdm : d ∈ m := List.drop_subset he m (by rw [hd]; simp)
                      have hsp := (hm d hdm).1
                      rw [← hd13] at hsp
                      simp [isSpaceB] at hsp
                    have hdrop : (m' ++ rest).drop (he + 4) = (m ++ rest).drop (he + 4) := by
                      rw [drop_append_ge (by omega), drop_append_ge (by omega), hlm]
                    rw [hdrop]
              · rw [if_neg h7, if_neg h7]
            · rw [if_neg h6, if_neg h6]

/-- C10 witness: `get` and `GET` produce the same response and store on a
concrete request. -/
theorem c10_witness :
    process_request (strBytes "get" ++ strBytes " /static/foo HTTP/1.1\r\n\r\n") [] =
      process_request (strBytes "GET" ++ strBytes " /static/foo HTTP/1.1\r\n\r\n") [] :=
  c10_method_case_insensitive (strBytes "GET") (strBytes "get")
    (strBytes " /static/foo HTTP/1.1\r\n\r\n") [] (by decide) (by decide)
    (by decide) (by decide)

end TKN2
